import Mathlib

/-!
# OpenWAD archive codec

A shallow embedding of the archive reader (`ExtractWad`), the archive writer
(`PackFolder`) and the drop handler (`HandleDrop`) of `openwad.cpp`.

* A mapped file view (`MappedFile::base`, `MappedOutput::base`) is a `List UInt8`; an access
  outside the view is reported as `none` / `Outcome.fault` instead of being performed.
* `uint32_t` arithmetic is arithmetic on `Nat` reduced modulo `4294967296 = 2^32`.
* `size_t` arithmetic is arithmetic on `Nat` reduced modulo `2 ^ sz`, where `sz` is the width of
  `size_t` on the build target (64 on x64, 32 on x86).
* An operation is the list of its effects (`Event`) in program order, as a function of its
  surroundings (`World`, `PackWorld`): the file system, the user's answers, library routines.
* The packed layout (`#pragma pack(push, 1)`): `sizeof(WadHeader) = 4`,
  `sizeof(WadItem) = 128 + 4 + 4 = 136`, `sizeof(wi.name) = 128`; `dataOffset` sits at byte 128
  and `dataSize` at byte 132 of an item; integers are little-endian.
-/

namespace OpenWAD

/-! ## Mapped views -/

/-- A byte of a mapped view (`uint8_t`). -/
abbrev Byte := UInt8

/-- The four bytes of a `uint32_t` value as stored in memory (little-endian). -/
def le32 (v : Nat) : List Byte :=
  [UInt8.ofNat v, UInt8.ofNat (v / 256), UInt8.ofNat (v / 65536), UInt8.ofNat (v / 16777216)]

/-- Load of a `uint32_t` field at byte offset `off` of a view; `none` when the four bytes do not
all lie inside the view. -/
def readU32 (buf : List Byte) (off : Nat) : Option Nat :=
  match buf.drop off with
  | b0 :: b1 :: b2 :: b3 :: _ =>
    some (b0.toNat + 256 * b1.toNat + 65536 * b2.toNat + 16777216 * b3.toNat)
  | _ => none

/-- Load of `n` consecutive bytes starting at offset `off` (the source range of
`out.write(src, wi.dataSize)`); `none` when a byte outside the view would be read. -/
def readBytes (buf : List Byte) (off n : Nat) : Option (List Byte) :=
  if n = 0 ∨ off + n ≤ buf.length then some ((buf.drop off).take n) else none

/-- Store of the bytes `bs` at offset `off` of a writable view (`memset`, `memcpy`, a field
assignment); `none` when a byte outside the view would be written. -/
def writeBytes (img : List Byte) (off : Nat) (bs : List Byte) : Option (List Byte) :=
  if off + bs.length ≤ img.length then some (img.take off ++ bs ++ img.drop (off + bs.length))
  else none

/-- The C library `strnlen(s, maxlen)` on the view, `s` given as a byte offset: the number of
bytes before the first NUL among the first `maxlen` bytes, `maxlen` if there is none. -/
def strnlen (buf : List Byte) (s : Nat) : Nat → Option Nat
  | 0 => some 0
  | m + 1 =>
    match buf[s]? with
    | none => none
    | some b => if b = 0 then some 0 else (strnlen buf (s + 1) m).map (· + 1)

/-! ## Archive reader: the validation steps of `ExtractWad` -/

/-- How the validation part of `ExtractWad` (steps 2 to 4) ends. `corruptEntry i` is the return
inside the entry loop at index `i`; `fault a` is a load outside the mapped view at offset `a`. -/
inductive Outcome where
  | tooSmall
  | tableExceedsFile
  | corruptEntry (i : Nat)
  | fault (addr : Nat)
  | accepted (fileCount : Nat)
  deriving DecidableEq

/-- Result of the validation steps: the outcome and the byte offsets of the `uint32_t` fields
loaded from the view, in program order, each field listed at its first load. -/
structure Validation where
  outcome : Outcome
  reads : List Nat
  deriving DecidableEq

/-- The value of `size_t tableBytes = sizeof(WadHeader) + header->fileCount * sizeof(WadItem);`,
formed in `size_t`. -/
def tableBytes (sz fileCount : Nat) : Nat :=
  (4 + fileCount * 136 % 2 ^ sz) % 2 ^ sz

/-- The value of `uint64_t end = wi.dataOffset + wi.dataSize;`: both operands are `uint32_t`,
so the sum is formed in 32 bits and widened afterwards. -/
def entryEnd (dataOffset dataSize : Nat) : Nat :=
  (dataOffset + dataSize) % 4294967296

/-- The test `end > mf.size || start < tableBytes` of the entry loop. -/
def entryRejected (fileSize tblBytes dataOffset dataSize : Nat) : Bool :=
  decide (entryEnd dataOffset dataSize > fileSize) || decide (dataOffset < tblBytes)

/-- The entry loop `for (size_t i = 0; i < header->fileCount; ++i)` of step 4, started at index
`i` with `remaining = fileCount - i` iterations to go. -/
def checkEntries (buf : List Byte) (tblBytes fileCount : Nat) :
    Nat → Nat → List Nat → Validation
  | 0, _, reads => ⟨Outcome.accepted fileCount, reads⟩
  | remaining + 1, i, reads =>
    match readU32 buf (4 + 136 * i + 128) with
    | none => ⟨Outcome.fault (4 + 136 * i + 128), reads ++ [4 + 136 * i + 128]⟩
    | some dataOffset =>
      match readU32 buf (4 + 136 * i + 132) with
      | none =>
        ⟨Outcome.fault (4 + 136 * i + 132), reads ++ [4 + 136 * i + 128, 4 + 136 * i + 132]⟩
      | some dataSize =>
        if entryRejected buf.length tblBytes dataOffset dataSize then
          ⟨Outcome.corruptEntry i, reads ++ [4 + 136 * i + 128, 4 + 136 * i + 132]⟩
        else
          checkEntries buf tblBytes fileCount remaining (i + 1)
            (reads ++ [4 + 136 * i + 128, 4 + 136 * i + 132])

/-- Steps 2 to 4 of `ExtractWad` on the mapped view `buf` (`mf.size = buf.length`). -/
def validate (sz : Nat) (buf : List Byte) : Validation :=
  if buf.length < 4 then ⟨Outcome.tooSmall, []⟩
  else
    match readU32 buf 0 with
    | none => ⟨Outcome.fault 0, [0]⟩
    | some fileCount =>
      if tableBytes sz fileCount > buf.length then ⟨Outcome.tableExceedsFile, [0]⟩
      else checkEntries buf (tableBytes sz fileCount) fileCount fileCount 0 [0]

/-- The field `wi.dataOffset` of `table[i]`. -/
def entryDataOffset (buf : List Byte) (i : Nat) : Option Nat :=
  readU32 buf (4 + 136 * i + 128)

/-- The field `wi.dataSize` of `table[i]`. -/
def entryDataSize (buf : List Byte) (i : Nat) : Option Nat :=
  readU32 buf (4 + 136 * i + 132)

/-- The `nameAnsi` view of `table[i]`:
`len = strnlen(wi.name, sizeof(wi.name)); std::string_view nameAnsi(wi.name, len);`. -/
def entryName (buf : List Byte) (i : Nat) : Option (List Byte) :=
  (strnlen buf (4 + 136 * i) 128).map fun len => (buf.drop (4 + 136 * i)).take len

/-- The bytes handed to `out.write(src, wi.dataSize)` for `table[i]`, with
`src = ptr + wi.dataOffset`. -/
def entryPayload (buf : List Byte) (i : Nat) : Option (List Byte) :=
  match entryDataOffset buf i, entryDataSize buf i with
  | some dataOffset, some dataSize => readBytes buf dataOffset dataSize
  | _, _ => none

/-! ## Archive writer: the layout steps of `PackFolder` -/

/-- The pack-side item (`struct SourceItem`). -/
structure SourceItem where
  fullPath : String
  relPathW : String
  wadName : List Byte
  data : List Byte
  deriving DecidableEq

/-- Step 4 of `PackFolder`: `size_t totalSize = sizeof(WadHeader) + items.size() *
sizeof(WadItem);` followed by `totalSize += si.data.size();` for every item. -/
def totalSize (sz : Nat) (items : List SourceItem) : Nat :=
  items.foldl (fun acc si => (acc + si.data.length) % 2 ^ sz)
    ((4 + items.length * 136 % 2 ^ sz) % 2 ^ sz)

/-- The view obtained from `MappedOutput::create(path, totalSize)`: `size` bytes whose initial
contents are whatever the storage holds (`fill`). -/
def MappedOutput.create (fill : Nat → Byte) (size : Nat) : List Byte :=
  (List.range size).map fill

/-- The table loop of step 6, started at index `i` with running `uint32_t offset`. -/
def writeTable (img : List Byte) : List SourceItem → Nat → Nat → Option (List Byte)
  | [], _, _ => some img
  | si :: rest, i, offset =>
    -- memset(&wi, 0, sizeof(WadItem));
    (writeBytes img (4 + 136 * i) (List.replicate 136 0)).bind fun img1 =>
    -- size_t len = wadName.size(); if (len >= sizeof(wi.name)) len = sizeof(wi.name) - 1;
    let len := if si.wadName.length ≥ 128 then 127 else si.wadName.length
    -- memcpy(wi.name, wadName.data(), len);
    (writeBytes img1 (4 + 136 * i) (si.wadName.take len)).bind fun img2 =>
    -- wi.dataOffset = offset;
    (writeBytes img2 (4 + 136 * i + 128) (le32 offset)).bind fun img3 =>
    -- wi.dataSize = (uint32_t)items[i].data.size();
    let dataSize := si.data.length % 4294967296
    (writeBytes img3 (4 + 136 * i + 132) (le32 dataSize)).bind fun img4 =>
    -- offset += wi.dataSize;
    writeTable img4 rest (i + 1) ((offset + dataSize) % 4294967296)

/-- The payload loop of step 8, started at index `i`: `dst = ptr + table[i].dataOffset`, then
`memcpy(dst, si.data.data(), si.data.size())` unless the data is empty. -/
def writeData (img : List Byte) : List SourceItem → Nat → Option (List Byte)
  | [], _ => some img
  | si :: rest, i =>
    (readU32 img (4 + 136 * i + 128)).bind fun dataOffset =>
    if si.data.isEmpty then writeData img rest (i + 1)
    else (writeBytes img dataOffset si.data).bind fun img1 => writeData img1 rest (i + 1)

/-- Steps 6 to 8 of `PackFolder` on the freshly mapped output view `init`: header, table,
payload. `none` when a store would fall outside the view. -/
def packImage (sz : Nat) (init : List Byte) (items : List SourceItem) : Option (List Byte) :=
  -- header->fileCount = (uint32_t)items.size();
  (writeBytes init 0 (le32 (items.length % 4294967296))).bind fun img0 =>
  -- uint32_t offset = sizeof(WadHeader) + (uint32_t)(items.size() * sizeof(WadItem));
  let offset := (4 + (items.length * 136 % 2 ^ sz) % 4294967296) % 4294967296
  (writeTable img0 items 0 offset).bind fun img1 =>
  writeData img1 items 0

/-- Steps 4 to 8 of `PackFolder`: the output storage is pre-sized to `totalSize`, mapped, and
filled. -/
def packArchive (sz : Nat) (fill : Nat → Byte) (items : List SourceItem) : Option (List Byte) :=
  packImage sz (MappedOutput.create fill (totalSize sz items)) items

/-! ## The archive layout

The byte image that header, table and payload writes are meant to leave behind; the theorems
below relate `packImage` to it. -/

/-- The number of name bytes copied by `memcpy(wi.name, ...)`: the encoded length, or 127 when
that length is 128 or more. -/
def nameLen (name : List Byte) : Nat :=
  if name.length ≥ 128 then 127 else name.length

/-- The 128-byte `name` field after `memset` and `memcpy`: the copied bytes, then zeros. -/
def nameField (name : List Byte) : List Byte :=
  name.take (nameLen name) ++ List.replicate (128 - nameLen name) 0

/-- The 136 bytes of one `WadItem`: name field, `dataOffset`, `dataSize`. -/
def itemImage (si : SourceItem) (offset : Nat) : List Byte :=
  nameField si.wadName ++ le32 offset ++ le32 (si.data.length % 4294967296)

/-- The table region for `items`, the first entry's payload placed at `offset`. -/
def tableImage : List SourceItem → Nat → List Byte
  | [], _ => []
  | si :: rest, offset =>
    itemImage si offset ++ tableImage rest ((offset + si.data.length % 4294967296) % 4294967296)

/-- The sum of the items' data lengths, as an exact integer. -/
def dataTotal : List SourceItem → Nat
  | [] => 0
  | si :: rest => si.data.length + dataTotal rest

/-- The payload region: the items' data back-to-back in item order. -/
def payloadImage : List SourceItem → List Byte
  | [] => []
  | si :: rest => si.data ++ payloadImage rest

/-- Header, table and payload region of the archive for `items`. -/
def archiveImage (items : List SourceItem) : List Byte :=
  le32 items.length ++ tableImage items (4 + 136 * items.length) ++ payloadImage items

/-- Entry `i` is loaded from inside the view and passes the test of the entry loop. -/
def EntryPasses (buf : List Byte) (tblBytes i : Nat) : Prop :=
  ∃ o s, entryDataOffset buf i = some o ∧ entryDataSize buf i = some s ∧
    entryRejected buf.length tblBytes o s = false

/-- The externally visible actions of an operation, in program order. -/
inductive Event where
  /-- The call `Log(text)`. -/
  | log (text : String)
  /-- The call `LogBuffered(text)`. -/
  | logBuffered (text : String)
  /-- The call `AppendBufferedLog()`. -/
  | appendBufferedLog
  /-- The call `SetProgress(percent)`. -/
  | setProgress (percent : Int)
  /-- The message box of `ShowError`. -/
  | errorBox (msg : String)
  /-- The message box of `ConfirmOverwrite`. -/
  | confirmDialog (target : String)
  /-- The call `std::filesystem::create_directory(dir, ec)`. -/
  | createDirectory (dir : String)
  /-- The call `std::filesystem::create_directories(dir, ec)`. -/
  | createDirectories (dir : String)
  /-- The statements `std::ofstream out(path, std::ios::binary); out.write(src, size);` with
  the bytes of the source range, `none` when that range leaves the mapped view. -/
  | writeFile (path : String) (payload : Option (List Byte))
  /-- A load outside the mapped view. -/
  | fault
  /-- The call `MappedOutput::create(path, totalSize)`, which creates or truncates the file. -/
  | createOutput (path : String) (size : Nat)
  /-- The call `mout.close()` with the contents the mapped output file then has, `none` when a
  store left the view. -/
  | closeOutput (path : String) (image : Option (List Byte))
  /-- The call `ClearLog()`. -/
  | clearLog
  /-- The call `DragFinish(hDrop)`. -/
  | dragFinish
  deriving DecidableEq

/-- What the operation sees of its surroundings: the file system, the user, the session flag,
and the library routines for paths and text whose code is not part of `openwad.cpp`. -/
structure World where
  /-- The result of `MappedFile::open(path)`: the mapped view, or `none` on failure. -/
  mapFile : String → Option (List Byte)
  /-- The result of `std::filesystem::exists(path)`. -/
  pathExists : String → Bool
  /-- The flag `g_DisableOverwriteWarning`. -/
  disableOverwriteWarning : Bool
  /-- The overwrite message box is answered with `IDYES`. -/
  answerYes : String → Bool
  /-- The call `create_directory(dir, ec)` sets `ec`. -/
  createDirectoryFails : String → Bool
  /-- The call `create_directories(dir, ec)` made while entry `i` is processed sets `ec`. -/
  createDirectoriesFails : Nat → String → Bool
  /-- The library routine `path::parent_path()`. -/
  parentPath : String → String
  /-- The library routine `path::stem()`. -/
  stem : String → String
  /-- The library routine `operator/` on paths. -/
  join : String → String → String
  /-- The conversion `ToWideFromAnsi`. -/
  toWideFromAnsi : List Byte → String
  /-- The text `FormatSeconds(elapsed)`. -/
  elapsed : String

/-- Conversion of a `size_t` value to `int` (two's complement, 32 bits). -/
def castInt (v : Nat) : Int :=
  if v % 4294967296 < 2147483648 then (v % 4294967296 : Nat)
  else ((v % 4294967296 : Nat) : Int) - 4294967296

/-- The routine `ShowError(msg)`: message box, then `Log(L"ERROR: " + msg)`. -/
def ShowError (msg : String) : List Event :=
  [Event.errorBox msg, Event.log ("ERROR: " ++ msg)]

/-- The routine `ConfirmOverwrite(target)`: the effects and the returned flag. -/
def ConfirmOverwrite (w : World) (target : String) : List Event × Bool :=
  if w.disableOverwriteWarning then ([], true)
  else ([Event.confirmDialog target], w.answerYes target)

/-- Step 7 of `ExtractWad`, the loop `for (size_t i = 0; i < header->fileCount; ++i)`, started at
index `i` with `remaining = fileCount - i` iterations to go and the set `createdDirs`. -/
def extractLoop (sz : Nat) (w : World) (buf : List Byte) (outDir : String) (fileCount : Nat) :
    Nat → Nat → List String → List Event
  | 0, _, _ => []
  | remaining + 1, i, createdDirs =>
    match entryName buf i with
    | none => [Event.fault]
    | some nameAnsi =>
      let nameW := w.toWideFromAnsi nameAnsi
      let outPath := w.join outDir nameW
      let parent := w.parentPath outPath
      let copy : List Event :=
        [Event.writeFile outPath (entryPayload buf i),
         Event.logBuffered ("Extracting: " ++ nameW),
         Event.setProgress (castInt ((i + 1) * 100 % 2 ^ sz / fileCount))]
      -- if (createdDirs.insert(parent).second)
      if parent ∈ createdDirs then
        copy ++ extractLoop sz w buf outDir fileCount remaining (i + 1) createdDirs
      else if w.createDirectoriesFails i parent then
        [Event.createDirectories parent,
         Event.logBuffered ("Failed to create directory: " ++ parent)]
          ++ extractLoop sz w buf outDir fileCount remaining (i + 1) (parent :: createdDirs)
      else
        Event.createDirectories parent :: copy
          ++ extractLoop sz w buf outDir fileCount remaining (i + 1) (parent :: createdDirs)

/-- Steps 6 to 8 of `ExtractWad`: everything after the output directory is settled. -/
def extractEntries (sz : Nat) (w : World) (buf : List Byte) (outDir : String)
    (fileCount : Nat) : List Event :=
  [Event.log "Extracting..."]
    ++ extractLoop sz w buf outDir fileCount fileCount 0 []
    ++ [Event.appendBufferedLog, Event.setProgress 100, Event.log "Extraction complete",
        Event.log ("Time taken: " ++ w.elapsed), Event.log "Drop the next WAD or folder",
        Event.setProgress 0]

/-- The operation `ExtractWad(wadPath)` on a target whose `size_t` is `sz` bits wide. -/
def ExtractWad (sz : Nat) (w : World) (wadPath : String) : List Event :=
  [Event.log "Reading WAD header", Event.setProgress 0] ++
  match w.mapFile wadPath with
  | none => ShowError "Failed to memory-map WAD file."
  | some buf =>
    match (validate sz buf).outcome with
    | Outcome.tooSmall => ShowError "Invalid WAD file."
    | Outcome.tableExceedsFile => ShowError "Invalid WAD: header/table exceeds file size."
    | Outcome.corruptEntry _ => ShowError "Invalid WAD: corrupt offsets or sizes."
    | Outcome.fault _ => [Event.fault]
    | Outcome.accepted fileCount =>
      let outDir := w.join (w.parentPath wadPath) (w.stem wadPath)
      Event.log (toString fileCount ++ " files found") ::
      if w.pathExists outDir then
        if (ConfirmOverwrite w outDir).2 then
          (ConfirmOverwrite w outDir).1 ++ extractEntries sz w buf outDir fileCount
        else
          (ConfirmOverwrite w outDir).1 ++ [Event.log "Extraction cancelled"]
      else
        Event.createDirectory outDir ::
        if w.createDirectoryFails outDir then ShowError "Failed to create output directory."
        else extractEntries sz w buf outDir fileCount

/-- An effect that is an error report or a log line. -/
def Event.isReport : Event → Bool
  | Event.log _ => true
  | Event.logBuffered _ => true
  | Event.appendBufferedLog => true
  | Event.errorBox _ => true
  | _ => false

/-- An effect on the destination: the overwrite question, a directory creation, a file write. -/
def Event.touchesDestination : Event → Bool
  | Event.confirmDialog _ => true
  | Event.createDirectory _ => true
  | Event.createDirectories _ => true
  | Event.writeFile _ _ => true
  | Event.createOutput _ _ => true
  | Event.closeOutput _ _ => true
  | _ => false

/-- One entry delivered by `std::filesystem::recursive_directory_iterator(base)`. -/
structure DirEntry where
  /-- The value of `entry.path()`. -/
  path : String
  /-- The value of `entry.is_regular_file()`. -/
  isRegularFile : Bool
  /-- The value of `std::filesystem::relative(entry.path(), base).native()`, `none` when the
  `catch (...)` branch is taken. -/
  relNative : Option String
  /-- The bytes the `std::ifstream` delivers for the file. -/
  contents : List Byte

/-- The surroundings of `PackFolder` and `HandleDrop`: those of `ExtractWad` and, in addition,
the directory tree, the output storage and further library routines. -/
structure PackWorld extends World where
  /-- The result of `std::filesystem::is_directory(base)`. -/
  isDirectory : String → Bool
  /-- The entries the iterator delivers: pass 0 is the counting loop, pass 1 the collecting
  loop. -/
  walk : Nat → String → List DirEntry
  /-- The library routine `path::replace_extension`. -/
  replaceExtension : String → String → String
  /-- The conversion `ToAnsiFromWide`. -/
  toAnsiFromWide : String → List Byte
  /-- The call `mout.create(path, totalSize)` returns `false`. -/
  createOutputFails : String → Bool
  /-- The initial contents of freshly created output storage. -/
  storageFill : Nat → Byte
  /-- The result of `IsDirectory(path)`, taken from `GetFileAttributesW`. -/
  isDirectoryAttr : String → Bool
  /-- The library routine `path::extension()`. -/
  extension : String → String

/-- The value handed to `SetProgress` by `(int)((done * 100) / total)`: the product is formed in
`size_t`, the quotient converted to `int`. -/
def progressPercent (sz done total : Nat) : Int :=
  castInt (done * 100 % 2 ^ sz / total)

/-- The effect of `std::replace(relW.begin(), relW.end(), L'/', L'\\')`: every slash becomes a
backslash. -/
def normalizeSeparators (relW : String) : String :=
  String.mk (relW.data.map fun c => if c = Char.ofNat 47 then Char.ofNat 92 else c)

/-- Step 2 of `PackFolder`, the collecting loop over the directory entries, started with the
counter `scanned`: the effects and the items pushed to `items`. -/
def collectLoop (sz : Nat) (w : PackWorld) (totalFiles : Nat) :
    List DirEntry → Nat → List Event × List SourceItem
  | [], _ => ([], [])
  | entry :: rest, scanned =>
    -- if (!entry.is_regular_file()) continue;
    if entry.isRegularFile = false then collectLoop sz w totalFiles rest scanned
    else
      -- scanned++; SetProgress((int)((scanned * 100) / totalFiles));
      let report := Event.setProgress (progressPercent sz (scanned + 1) totalFiles)
      match entry.relNative with
      | none =>
        (report :: Event.log ("Skipping unreadable path: " ++ entry.path)
            :: (collectLoop sz w totalFiles rest (scanned + 1)).1,
          (collectLoop sz w totalFiles rest (scanned + 1)).2)
      | some relNative =>
        let relW := normalizeSeparators relNative
        (report :: (collectLoop sz w totalFiles rest (scanned + 1)).1,
          ⟨entry.path, relW, w.toAnsiFromWide relW, entry.contents⟩
            :: (collectLoop sz w totalFiles rest (scanned + 1)).2)

/-- The log and progress effects of step 8 of `PackFolder`, the loop
`for (size_t i = 0; i < items.size(); ++i)` started at index `i`, with `count = items.size()`;
the copies themselves are `writeData`. -/
def packLoop (sz count : Nat) : List SourceItem → Nat → List Event
  | [], _ => []
  | si :: rest, i =>
    Event.logBuffered ("Packing: " ++ si.relPathW)
      :: Event.setProgress (progressPercent sz (i + 1) count)
      :: packLoop sz count rest (i + 1)

/-- Steps 4 to 9 of `PackFolder`: everything after the overwrite question. -/
def packWrite (sz : Nat) (w : PackWorld) (outPath : String) (items : List SourceItem) :
    List Event :=
  Event.createOutput outPath (totalSize sz items) ::
  if w.createOutputFails outPath then ShowError "Failed to create memory-mapped WAD file."
  else
    [Event.setProgress 0, Event.log "Packing..."]
      ++ packLoop sz items.length items 0
      ++ [Event.closeOutput outPath
            (packImage sz (MappedOutput.create w.storageFill (totalSize sz items)) items),
          Event.appendBufferedLog, Event.setProgress 100, Event.log "Packing complete.",
          Event.log ("Time taken: " ++ w.elapsed), Event.log "Drop the next WAD or folder",
          Event.setProgress 0]

/-- The operation `PackFolder(folderPath)` on a target whose `size_t` is `sz` bits wide. -/
def PackFolder (sz : Nat) (w : PackWorld) (folderPath : String) : List Event :=
  [Event.log "Reading folder contents...", Event.setProgress 0] ++
  if w.isDirectory folderPath = false then ShowError "Path is not a directory."
  else
    -- step 1: count the regular files
    let totalFiles := ((w.walk 0 folderPath).filter fun entry => entry.isRegularFile).length
    if totalFiles = 0 then [Event.log "Folder contains no files."]
    else
      let collected := collectLoop sz w totalFiles (w.walk 1 folderPath) 0
      let outPath := w.replaceExtension folderPath ".wad"
      Event.log (toString totalFiles ++ " files found") :: collected.1
        ++ [Event.setProgress 100, Event.log "Collecting files completed"]
        ++ (if w.pathExists outPath then
              if (ConfirmOverwrite w.toWorld outPath).2 then
                (ConfirmOverwrite w.toWorld outPath).1 ++ packWrite sz w outPath collected.2
              else
                (ConfirmOverwrite w.toWorld outPath).1 ++ [Event.log "Cancelled creating WAD"]
            else packWrite sz w outPath collected.2)

/-- The test `_wcsicmp(a, b) == 0`: equality after mapping the letters `A` to `Z` to lower
case. -/
def wcsicmpEq (a b : String) : Bool :=
  a.data.map Char.toLower == b.data.map Char.toLower

/-- Step 3 of `HandleDrop`, the loop over the dropped paths, started at index `i`; `ws i` is
the surroundings at the time path `i` is handled. -/
def dropLoop (sz : Nat) (ws : Nat → PackWorld) : List String → Nat → List Event
  | [], _ => []
  | p :: rest, i =>
    [Event.log ("Loading: " ++ p), Event.setProgress 0]
      ++ (if (ws i).isDirectoryAttr p then PackFolder sz (ws i) p
          else if wcsicmpEq ((ws i).extension p) ".wad" then ExtractWad sz (ws i).toWorld p
          else [Event.log ("Not a WAD file: " ++ p)])
      ++ dropLoop sz ws rest (i + 1)

/-- The routine `HandleDrop(hDrop)` for the dropped paths `paths`, as `DragQueryFileW` returns
them. -/
def HandleDrop (sz : Nat) (ws : Nat → PackWorld) (paths : List String) : List Event :=
  if paths.length = 0 then [Event.dragFinish]
  else Event.clearLog :: dropLoop sz ws paths 0 ++ [Event.dragFinish]

/-- The effects of one iteration of the drop loop, for the path `p`, told by where the path is
routed: a directory goes to `PackFolder`, any other path with extension `.wad` (letters in any
case) to `ExtractWad`, and anything else is logged and starts no operation. -/
def DropSegment (sz : Nat) (w : PackWorld) (p : String) (seg : List Event) : Prop :=
  (w.isDirectoryAttr p = true →
    seg = [Event.log ("Loading: " ++ p), Event.setProgress 0] ++ PackFolder sz w p) ∧
  (w.isDirectoryAttr p = false → wcsicmpEq (w.extension p) ".wad" = true →
    seg = [Event.log ("Loading: " ++ p), Event.setProgress 0] ++ ExtractWad sz w.toWorld p) ∧
  (w.isDirectoryAttr p = false → wcsicmpEq (w.extension p) ".wad" = false →
    seg = [Event.log ("Loading: " ++ p), Event.setProgress 0,
           Event.log ("Not a WAD file: " ++ p)])

/-- An effect that shows the overwrite message box. -/
def Event.isConfirmDialog : Event → Bool
  | Event.confirmDialog _ => true
  | _ => false

/-- An effect that writes or creates a file or directory. -/
def Event.writesOrCreates : Event → Bool
  | Event.createDirectory _ => true
  | Event.createDirectories _ => true
  | Event.writeFile _ _ => true
  | Event.createOutput _ _ => true
  | Event.closeOutput _ _ => true
  | _ => false

/-- The overwrite gate on the effects `t` of an operation whose destination exists, given the
skip flag and the answer the user would give: the message box is shown at most once and never
when the flag is set; anything written or created comes after a grant, that is, the flag is set
or the answer is yes and the message box was shown before; and after a negative answer nothing
is written or created. -/
def OverwriteGate (t : List Event) (skipFlag answerYes : Bool) : Prop :=
  t.countP Event.isConfirmDialog ≤ 1 ∧
  (skipFlag = true → ∀ e ∈ t, e.isConfirmDialog = false) ∧
  (∀ pre e post, t = pre ++ e :: post → e.writesOrCreates = true →
    skipFlag = true ∨ (answerYes = true ∧ ∃ d ∈ pre, d.isConfirmDialog = true)) ∧
  (skipFlag = false → answerYes = false → ∀ e ∈ t, e.writesOrCreates = false)

/-! ## The extraction loop without the directory set -/

/-- The extraction loop as the claim about the cache words it: the same loop calling
`create_directories` for every entry, without the set `createdDirs`. -/
def extractLoopUncached (sz : Nat) (w : World) (buf : List Byte) (outDir : String)
    (fileCount : Nat) : Nat → Nat → List Event
  | 0, _ => []
  | remaining + 1, i =>
    match entryName buf i with
    | none => [Event.fault]
    | some nameAnsi =>
      let nameW := w.toWideFromAnsi nameAnsi
      let outPath := w.join outDir nameW
      let parent := w.parentPath outPath
      let copy : List Event :=
        [Event.writeFile outPath (entryPayload buf i),
         Event.logBuffered ("Extracting: " ++ nameW),
         Event.setProgress (castInt ((i + 1) * 100 % 2 ^ sz / fileCount))]
      if w.createDirectoriesFails i parent then
        [Event.createDirectories parent,
         Event.logBuffered ("Failed to create directory: " ++ parent)]
          ++ extractLoopUncached sz w buf outDir fileCount remaining (i + 1)
      else
        Event.createDirectories parent :: copy
          ++ extractLoopUncached sz w buf outDir fileCount remaining (i + 1)

/-- Every effect except the `create_directories` calls themselves: the logged lines, the file
writes and the progress reports. -/
def withoutDirectoryCalls (t : List Event) : List Event :=
  t.filter fun e =>
    match e with
    | Event.createDirectories _ => false
    | _ => true

/-! ## Instrumented routines

The same routines as above, returning in addition what they touch. -/

/-- The routine `strnlen(s, maxlen)` together with the byte offsets it loads, in order.
A load outside the view is listed too and ends the scan. -/
def strnlenLog (buf : List Byte) (s : Nat) : Nat → Option Nat × List Nat
  | 0 => (some 0, [])
  | m + 1 =>
    match buf[s]? with
    | none => (none, [s])
    | some b =>
      if b = 0 then (some 0, [s])
      else ((strnlenLog buf (s + 1) m).1.map (· + 1), s :: (strnlenLog buf (s + 1) m).2)

/-- The payload loop of step 8 together with the `memcpy` calls it makes, each given as the
pair of destination offset `table[i].dataOffset` and length `si.data.size()`, in order. -/
def writeDataLog (img : List Byte) :
    List SourceItem → Nat → Option (List Byte) × List (Nat × Nat)
  | [], _ => (some img, [])
  | si :: rest, i =>
    match readU32 img (4 + 136 * i + 128) with
    | none => (none, [])
    | some dataOffset =>
      if si.data.isEmpty then writeDataLog img rest (i + 1)
      else
        match writeBytes img dataOffset si.data with
        | none => (none, [(dataOffset, si.data.length)])
        | some img1 =>
          ((writeDataLog img1 rest (i + 1)).1,
            (dataOffset, si.data.length) :: (writeDataLog img1 rest (i + 1)).2)

/-- Steps 6 to 8 of `PackFolder` as in `packImage`, together with the payload copies made. -/
def packImageLog (sz : Nat) (init : List Byte) (items : List SourceItem) :
    Option (List Byte) × List (Nat × Nat) :=
  match (writeBytes init 0 (le32 (items.length % 4294967296))).bind fun img0 =>
      writeTable img0 items 0
        ((4 + (items.length * 136 % 2 ^ sz) % 4294967296) % 4294967296) with
  | none => (none, [])
  | some img1 => writeDataLog img1 items 0

/-- The payload copies made when `items` are packed into freshly created storage: pairs of
destination offset and length. -/
def packCopies (sz : Nat) (fill : Nat → Byte) (items : List SourceItem) : List (Nat × Nat) :=
  (packImageLog sz (MappedOutput.create fill (totalSize sz items)) items).2

/-! ## Concrete inputs -/

/-- The path separator, a backslash. -/
def sep : String := String.singleton (Char.ofNat 92)

/-- The two files of the worked scenario: `a.txt` holding the three bytes `hi` and a line feed,
and the empty file `b.bin` in the subdirectory `sub`. -/
def scenarioItems : List SourceItem :=
  [⟨"dir" ++ sep ++ "a.txt", "a.txt", [97, 46, 116, 120, 116], [104, 105, 10]⟩,
   ⟨"dir" ++ sep ++ "sub" ++ sep ++ "b.bin", "sub" ++ sep ++ "b.bin",
    [115, 117, 98, 92, 98, 46, 98, 105, 110], []⟩]

/-- A 140-byte view holding a header with `fileCount = 1` and one entry named `a` with
`dataOffset = 140` and `dataSize = 0xFFFFFFFF`. -/
def wrappedEntryView : List Byte :=
  le32 1 ++ (97 :: List.replicate 127 0) ++ le32 140 ++ le32 4294967295

/-- A 4-byte view whose header claims `fileCount = 0xFFFFFFFF`. -/
def hugeCountView : List Byte := le32 4294967295

/-- A 276-byte view with two entries: entry 0 is an empty payload at offset 276, entry 1 has
`dataOffset = 0`, which lies before the end of the table. -/
def corruptSecondView : List Byte :=
  le32 2 ++ (List.replicate 128 0 ++ le32 276 ++ le32 0)
    ++ (List.replicate 128 0 ++ le32 0 ++ le32 0)

/-- Five items in the directories `a`, `b`, `c`, `b` and `e`. -/
def fiveItems : List SourceItem :=
  [⟨"1", "1", [97, 92, 49], [1]⟩,
   ⟨"2", "2", [98, 92, 50], [2, 3]⟩,
   ⟨"3", "3", [99, 92, 51], []⟩,
   ⟨"4", "4", [98, 92, 52], [4]⟩,
   ⟨"5", "5", [101, 92, 53], [5, 6]⟩]

/-- The archive of `fiveItems`. -/
def fiveEntryView : List Byte := archiveImage fiveItems

/-- A surrounding in which every path maps to `view`, no destination exists yet, the user
declines overwriting, and the only failing directory creation is the one made for the entry
with index `failAt`; paths are backslash-separated strings. -/
def sampleWorld (view : List Byte) (failAt : Nat) : World where
  mapFile := fun _ => some view
  pathExists := fun _ => false
  disableOverwriteWarning := false
  answerYes := fun _ => false
  createDirectoryFails := fun _ => false
  createDirectoriesFails := fun i _ => i == failAt
  parentPath := fun p =>
    String.mk ((p.data.reverse.dropWhile (fun c => c != Char.ofNat 92)).drop 1).reverse
  stem := fun p =>
    String.mk (((p.data.reverse.takeWhile (fun c => c != Char.ofNat 92)).dropWhile
      (fun c => c != Char.ofNat 46)).drop 1).reverse
  join := fun a b => a ++ sep ++ b
  toWideFromAnsi := fun bs => String.mk (bs.map fun b => Char.ofNat b.toNat)
  elapsed := "0.001 seconds"

/-- A 416-byte view with three entries that the reader tolerates: entry 0 is a zero-length
payload at `dataOffset = fileSize = 416`, entry 1 is 2 bytes at offset 414, entry 2 is 2 bytes
at offset 413; the offsets decrease, byte 412 belongs to no entry, and byte 414 to two. -/
def tolerantView : List Byte :=
  le32 3 ++ (List.replicate 128 0 ++ le32 416 ++ le32 0)
    ++ (List.replicate 128 0 ++ le32 414 ++ le32 2)
    ++ (List.replicate 128 0 ++ le32 413 ++ le32 2) ++ [1, 2, 3, 4]

/-- Two items, the first of which is an empty file. -/
def emptyFirstItems : List SourceItem :=
  [⟨"e", "e", [101], []⟩, ⟨"f", "f", [102], [1]⟩]

/-- A 140-byte view whose single entry has a name field without any NUL byte. -/
def fullNameView : List Byte :=
  le32 1 ++ List.replicate 128 65 ++ le32 140 ++ le32 0

/-- A payload of `2^32 - 272` equal bytes. -/
def bigData (b : Byte) : List Byte := List.replicate 4294967024 b

/-- Two items of data lengths `2^32 - 272` and `1`: archive size `2^32 + 5`. -/
def beyondLimitItems (b : Byte) : List SourceItem :=
  [⟨"h", "h", [104], bigData b⟩, ⟨"t", "t", [116], [66]⟩]

/-- Two items in the same directory `d`. -/
def siblingItems : List SourceItem :=
  [⟨"1", "1", [100, 92, 49], [1]⟩, ⟨"2", "2", [100, 92, 50], [2]⟩]

/-- The archive of `siblingItems`. -/
def siblingView : List Byte := archiveImage siblingItems

/-- The surroundings of `sampleWorld`, except that `create_directories` fails exactly for the
path `dir`, whichever entry asks for it. -/
def blockedDirWorld (view : List Byte) (dir : String) : World :=
  { sampleWorld view 0 with createDirectoriesFails := fun _ p => p == dir }

/-- A folder listing: a subdirectory entry, then the two files of `scenarioItems`. -/
def sampleListing : List DirEntry :=
  [⟨"dir" ++ sep ++ "sub", false, some "sub", []⟩,
   ⟨"dir" ++ sep ++ "a.txt", true, some "a.txt", [104, 105, 10]⟩,
   ⟨"dir" ++ sep ++ "sub" ++ sep ++ "b.bin", true, some "sub/b.bin", []⟩]

/-- Surroundings for packing: those of `sampleWorld view 0` with the destination reported as
existing or not, the skip flag and the user's answer as given, every directory holding
`sampleListing`, and `dir` the only path that is a directory. -/
def samplePackWorld (view : List Byte) (destinationExists skipFlag answer : Bool) : PackWorld :=
  { sampleWorld view 0 with
    pathExists := fun _ => destinationExists
    disableOverwriteWarning := skipFlag
    answerYes := fun _ => answer
    isDirectory := fun p => p == "dir"
    walk := fun _ _ => sampleListing
    replaceExtension := fun p ext => p ++ ext
    toAnsiFromWide := fun s => s.data.map fun c => UInt8.ofNat c.toNat
    createOutputFails := fun _ => false
    storageFill := fun _ => 255
    isDirectoryAttr := fun p => p == "dir"
    extension := fun p =>
      String.mk ((p.data.reverse.takeWhile (fun c => c != Char.ofNat 46)).reverse)
        |> fun e => if e == p then "" else "." ++ e }

/-! ## Byte-level lemmas -/

theorem toNat_ofNat (n : Nat) : (UInt8.ofNat n).toNat = n % 256 := by
  rfl

theorem toNat_lt (b : Byte) : b.toNat < 256 := UInt8.toNat_lt_size b

theorem le32_length (v : Nat) : (le32 v).length = 4 := rfl

theorem readU32_of_drop (buf : List Byte) (off v : Nat) (rest : List Byte) (hv : v < 4294967296)
    (h : buf.drop off = le32 v ++ rest) : readU32 buf off = some v := by
  unfold readU32
  rw [h]
  simp only [le32, List.cons_append, List.nil_append, toNat_ofNat, Option.some.injEq]
  omega

theorem readU32_append_mid (a c : List Byte) (v : Nat) (hv : v < 4294967296) :
    readU32 (a ++ le32 v ++ c) a.length = some v := by
  apply readU32_of_drop _ _ _ c hv
  rw [List.append_assoc, List.drop_left]

theorem readU32_some_bound (buf : List Byte) (off v : Nat) (h : readU32 buf off = some v) :
    v < 4294967296 ∧ off + 4 ≤ buf.length := by
  unfold readU32 at h
  split at h
  · rename_i b0 b1 b2 b3 tl heq
    have hl : (buf.drop off).length = (b0 :: b1 :: b2 :: b3 :: tl).length := by rw [heq]
    simp only [List.length_drop, List.length_cons] at hl
    have h0 := toNat_lt b0
    have h1 := toNat_lt b1
    have h2 := toNat_lt b2
    have h3 := toNat_lt b3
    simp only [Option.some.injEq] at h
    constructor <;> omega
  · cases h

theorem readU32_isSome (buf : List Byte) (off : Nat) (h : off + 4 ≤ buf.length) :
    ∃ v, readU32 buf off = some v := by
  unfold readU32
  have hl : 4 ≤ (buf.drop off).length := by simp only [List.length_drop]; omega
  match hd : buf.drop off with
  | b0 :: b1 :: b2 :: b3 :: tl => exact ⟨_, rfl⟩
  | [] => rw [hd] at hl; simp at hl
  | [_] => rw [hd] at hl; simp at hl
  | [_, _] => rw [hd] at hl; simp at hl
  | [_, _, _] => rw [hd] at hl; simp at hl

theorem readU32_append_left (buf ext : List Byte) (off v : Nat) (h : readU32 buf off = some v) :
    readU32 (buf ++ ext) off = some v := by
  have hb := (readU32_some_bound buf off v h).2
  unfold readU32 at h ⊢
  rw [List.drop_append_of_le_length (by omega)]
  split at h
  · rename_i b0 b1 b2 b3 tl heq
    rw [heq]
    simpa using h
  · cases h

theorem writeBytes_mid (a b c b' : List Byte) (off : Nat) (hoff : off = a.length)
    (hlen : b'.length = b.length) :
    writeBytes (a ++ b ++ c) off b' = some (a ++ b' ++ c) := by
  subst hoff
  unfold writeBytes
  have hle : a.length + b'.length ≤ (a ++ b ++ c).length := by
    simp only [List.length_append]; omega
  rw [if_pos hle, List.append_assoc a b c, List.take_left, hlen, List.drop_append,
    List.drop_left]

theorem nameLen_le (name : List Byte) : nameLen name ≤ 127 ∧ nameLen name ≤ name.length := by
  unfold nameLen; split <;> omega

theorem nameField_length (name : List Byte) : (nameField name).length = 128 := by
  have h := nameLen_le name
  simp only [nameField, List.length_append, List.length_take, List.length_replicate]
  omega

theorem itemImage_length (si : SourceItem) (offset : Nat) : (itemImage si offset).length = 136 := by
  simp only [itemImage, List.length_append, nameField_length, le32_length]

theorem tableImage_length (items : List SourceItem) :
    ∀ offset, (tableImage items offset).length = 136 * items.length := by
  induction items with
  | nil => intro _; rfl
  | cons si rest ih =>
    intro offset
    simp only [tableImage, List.length_append, itemImage_length, ih, List.length_cons]
    omega

theorem payloadImage_length (items : List SourceItem) :
    (payloadImage items).length = dataTotal items := by
  induction items with
  | nil => rfl
  | cons si rest ih =>
    simp only [payloadImage, dataTotal, List.length_append, ih]

theorem writeItem_steps (pre R : List Byte) (si : SourceItem) (i offset : Nat)
    (hpre : pre.length = 4 + 136 * i) (m1 : List Byte) (hm1 : m1.length = 136)
    (k : List Byte → Option (List Byte)) :
    ((writeBytes (pre ++ m1 ++ R) (4 + 136 * i) (List.replicate 136 0)).bind fun img1 =>
      (writeBytes img1 (4 + 136 * i)
        (si.wadName.take (if si.wadName.length ≥ 128 then 127 else si.wadName.length))).bind
      fun img2 => (writeBytes img2 (4 + 136 * i + 128) (le32 offset)).bind
      fun img3 => (writeBytes img3 (4 + 136 * i + 132) (le32 (si.data.length % 4294967296))).bind k)
      = k (pre ++ itemImage si offset ++ R) := by
  have hL := nameLen_le si.wadName
  have hLdef : (if si.wadName.length ≥ 128 then 127 else si.wadName.length)
      = nameLen si.wadName := rfl
  rw [hLdef]
  generalize hLg : nameLen si.wadName = L at hL
  have hnm : (si.wadName.take L).length = L := by
    rw [List.length_take]; omega
  -- memset
  rw [writeBytes_mid pre m1 R _ _ hpre.symm (by rw [List.length_replicate, hm1])]
  simp only [Option.some_bind]
  -- memcpy of the name
  have hz : (List.replicate 136 (0 : Byte)) =
      List.replicate L 0 ++ (List.replicate (128 - L) 0 ++ List.replicate 4 0
        ++ List.replicate 4 0) := by
    simp only [← List.replicate_add]
    congr 1
    omega
  rw [hz, ← List.append_assoc pre, List.append_assoc (pre ++ List.replicate L 0)]
  rw [writeBytes_mid pre (List.replicate L 0) _ _ _ hpre.symm
    (by rw [hnm, List.length_replicate])]
  simp only [Option.some_bind]
  -- dataOffset
  have e3 : pre ++ List.take L si.wadName ++
      ((List.replicate (128 - L) 0 ++ List.replicate 4 0 ++ List.replicate 4 0) ++ R)
      = (pre ++ List.take L si.wadName ++ List.replicate (128 - L) 0) ++ List.replicate 4 0
        ++ (List.replicate 4 0 ++ R) := by
    simp only [List.append_assoc]
  rw [e3, writeBytes_mid _ (List.replicate 4 0) _ _ _
    (by simp only [List.length_append, hnm, List.length_replicate]; omega)
    (by rw [le32_length, List.length_replicate])]
  simp only [Option.some_bind]
  -- dataSize
  have e4 : (pre ++ List.take L si.wadName ++ List.replicate (128 - L) 0) ++ le32 offset
      ++ (List.replicate 4 0 ++ R)
      = ((pre ++ List.take L si.wadName ++ List.replicate (128 - L) 0) ++ le32 offset)
        ++ List.replicate 4 0 ++ R := by
    simp only [List.append_assoc]
  rw [e4, writeBytes_mid _ (List.replicate 4 0) _ _ _
    (by simp only [List.length_append, hnm, List.length_replicate, le32_length]; omega)
    (by rw [le32_length, List.length_replicate])]
  simp only [Option.some_bind, itemImage, nameField, hLg, List.append_assoc]

theorem writeTable_cons (img : List Byte) (si : SourceItem) (rest : List SourceItem)
    (i offset : Nat) :
    writeTable img (si :: rest) i offset =
    ((writeBytes img (4 + 136 * i) (List.replicate 136 0)).bind fun img1 =>
      (writeBytes img1 (4 + 136 * i)
        (si.wadName.take (if si.wadName.length ≥ 128 then 127 else si.wadName.length))).bind
      fun img2 => (writeBytes img2 (4 + 136 * i + 128) (le32 offset)).bind
      fun img3 => (writeBytes img3 (4 + 136 * i + 132) (le32 (si.data.length % 4294967296))).bind
      fun img4 => writeTable img4 rest (i + 1)
        ((offset + si.data.length % 4294967296) % 4294967296)) := rfl

theorem writeTable_layout (items : List SourceItem) :
    ∀ (pre mid post : List Byte) (i offset : Nat), pre.length = 4 + 136 * i →
      mid.length = 136 * items.length →
      writeTable (pre ++ mid ++ post) items i offset
        = some (pre ++ tableImage items offset ++ post) := by
  induction items with
  | nil =>
    intro pre mid post i offset _ hmid
    have : mid = [] := List.length_eq_zero.mp (by simpa using hmid)
    subst this
    simp [writeTable, tableImage]
  | cons si rest ih =>
    intro pre mid post i offset hpre hmid
    have hsplit : mid = mid.take 136 ++ mid.drop 136 := (List.take_append_drop 136 mid).symm
    have h1 : (mid.take 136).length = 136 := by
      rw [List.length_take, hmid, List.length_cons]; omega
    have h2 : (mid.drop 136).length = 136 * rest.length := by
      rw [List.length_drop, hmid, List.length_cons]; omega
    have himg : pre ++ mid ++ post = pre ++ mid.take 136 ++ (mid.drop 136 ++ post) := by
      conv_lhs => rw [hsplit]
      simp only [List.append_assoc]
    rw [himg, writeTable_cons,
      writeItem_steps pre (mid.drop 136 ++ post) si i offset hpre (mid.take 136) h1]
    have hpre2 : (pre ++ itemImage si offset).length = 4 + 136 * (i + 1) := by
      rw [List.length_append, itemImage_length, hpre]; omega
    rw [← List.append_assoc, ih _ _ post (i + 1) _ hpre2 h2]
    simp only [tableImage, List.append_assoc]

theorem dataTotal_take_le (items : List SourceItem) :
    ∀ k, dataTotal (items.take k) ≤ dataTotal items := by
  induction items with
  | nil => intro k; simp [dataTotal]
  | cons si rest ih =>
    intro k
    cases k with
    | zero => simp [dataTotal]
    | succ k =>
      have := ih k
      simp only [List.take_succ_cons, dataTotal]
      omega

theorem dataTotal_take_succ (items : List SourceItem) :
    ∀ k (hk : k < items.length),
      dataTotal (items.take (k + 1)) = dataTotal (items.take k) + items[k].data.length := by
  induction items with
  | nil => intro k hk; simp at hk
  | cons si rest ih =>
    intro k hk
    cases k with
    | zero => simp [dataTotal]
    | succ k =>
      have := ih k (by simpa using hk)
      simp only [List.take_succ_cons, dataTotal, List.getElem_cons_succ] at this ⊢
      omega

theorem dataTotal_getElem_le (items : List SourceItem) (k : Nat) (hk : k < items.length) :
    dataTotal (items.take k) + items[k].data.length ≤ dataTotal items := by
  rw [← dataTotal_take_succ items k hk]
  exact dataTotal_take_le items (k + 1)

theorem tableImage_drop (items : List SourceItem) :
    ∀ (pre post : List Byte) (offset k : Nat) (hk : k < items.length),
      offset + dataTotal items < 4294967296 →
      ∃ tail, (pre ++ tableImage items offset ++ post).drop (pre.length + 136 * k)
        = itemImage items[k] (offset + dataTotal (items.take k)) ++ tail := by
  induction items with
  | nil => intro _ _ _ k hk; simp at hk
  | cons si rest ih =>
    intro pre post offset k hk hb
    simp only [dataTotal] at hb
    cases k with
    | zero =>
      refine ⟨tableImage rest ((offset + si.data.length % 4294967296) % 4294967296) ++ post, ?_⟩
      simp only [tableImage, Nat.mul_zero, Nat.add_zero, List.append_assoc, List.drop_left,
        List.take_zero, dataTotal, List.getElem_cons_zero]
    | succ k =>
      have hk2 : k < rest.length := by simpa using hk
      have hoff : (offset + si.data.length % 4294967296) % 4294967296
          = offset + si.data.length := by omega
      obtain ⟨tail, ht⟩ := ih (pre ++ itemImage si offset) post (offset + si.data.length) k hk2
        (by omega)
      refine ⟨tail, ?_⟩
      have e1 : pre ++ tableImage (si :: rest) offset ++ post
          = (pre ++ itemImage si offset) ++ tableImage rest (offset + si.data.length) ++ post := by
        simp only [tableImage, hoff, List.append_assoc]
      have e2 : pre.length + 136 * (k + 1) = (pre ++ itemImage si offset).length + 136 * k := by
        rw [List.length_append, itemImage_length]; omega
      rw [e1, e2, ht]
      simp only [List.take_succ_cons, dataTotal, List.getElem_cons_succ, Nat.add_assoc]

theorem itemImage_readOffset (buf tail : List Byte) (p : Nat) (si : SourceItem) (offset : Nat)
    (hoff : offset < 4294967296) (h : buf.drop p = itemImage si offset ++ tail) :
    readU32 buf (p + 128) = some offset := by
  apply readU32_of_drop buf (p + 128) offset (le32 (si.data.length % 4294967296) ++ tail) hoff
  rw [← List.drop_drop, h]
  have hn := nameField_length si.wadName
  rw [itemImage, List.append_assoc, List.append_assoc, ← hn, List.drop_left]

theorem itemImage_readSize (buf tail : List Byte) (p : Nat) (si : SourceItem) (offset : Nat)
    (h : buf.drop p = itemImage si offset ++ tail) :
    readU32 buf (p + 132) = some (si.data.length % 4294967296) := by
  apply readU32_of_drop buf (p + 132) _ tail (Nat.mod_lt _ (by decide))
  rw [← List.drop_drop, h]
  have hn : (nameField si.wadName ++ le32 offset).length = 132 := by
    rw [List.length_append, nameField_length, le32_length]
  rw [itemImage, List.append_assoc, ← hn, List.drop_left]

theorem itemImage_readName (buf tail : List Byte) (p : Nat) (si : SourceItem) (offset : Nat)
    (h : buf.drop p = itemImage si offset ++ tail) :
    ∃ tail2, buf.drop p = nameField si.wadName ++ tail2 :=
  ⟨le32 offset ++ le32 (si.data.length % 4294967296) ++ tail, by
    rw [h, itemImage, List.append_assoc, List.append_assoc, List.append_assoc]⟩

theorem writeData_cons (img : List Byte) (si : SourceItem) (rest : List SourceItem) (i : Nat) :
    writeData img (si :: rest) i =
      (readU32 img (4 + 136 * i + 128)).bind fun dataOffset =>
        if si.data.isEmpty then writeData img rest (i + 1)
        else (writeBytes img dataOffset si.data).bind fun img1 => writeData img1 rest (i + 1) :=
  rfl

theorem writeData_layout (T P2 : List Byte) (items : List SourceItem) :
    ∀ (i : Nat) (D P1 : List Byte), P1.length = dataTotal items →
      (∀ k, k < items.length → readU32 T (4 + 136 * (i + k) + 128)
        = some (T.length + D.length + dataTotal (items.take k))) →
      writeData (T ++ D ++ P1 ++ P2) items i = some (T ++ D ++ payloadImage items ++ P2) := by
  induction items with
  | nil =>
    intro i D P1 hP1 _
    have : P1 = [] := List.length_eq_zero.mp (by simpa [dataTotal] using hP1)
    subst this
    simp [writeData, payloadImage]
  | cons si rest ih =>
    intro i D P1 hP1 hread
    have h0 := hread 0 (by simp)
    simp only [Nat.add_zero, List.take_zero, dataTotal] at h0
    have hr : readU32 (T ++ D ++ P1 ++ P2) (4 + 136 * i + 128) = some (T.length + D.length) := by
      rw [List.append_assoc, List.append_assoc]
      exact readU32_append_left _ _ _ _ h0
    rw [writeData_cons, hr]
    simp only [Option.some_bind]
    simp only [dataTotal] at hP1
    have hread2 : ∀ k, k < rest.length → readU32 T (4 + 136 * (i + 1 + k) + 128)
        = some (T.length + (D ++ si.data).length + dataTotal (rest.take k)) := by
      intro k hk
      have := hread (k + 1) (by simpa using hk)
      simp only [List.take_succ_cons, dataTotal, List.length_append] at this ⊢
      rw [show i + 1 + k = i + (k + 1) by omega, this]
      congr 1
      omega
    by_cases he : si.data.isEmpty = true
    · have hnil : si.data = [] := List.isEmpty_iff.mp he
      rw [if_pos he]
      have := ih (i + 1) (D ++ si.data) P1 (by rw [hP1, hnil]; simp) hread2
      simpa only [hnil, List.append_nil, payloadImage, List.nil_append] using this
    · rw [if_neg he]
      have hsplit : P1 = P1.take si.data.length ++ P1.drop si.data.length :=
        (List.take_append_drop _ P1).symm
      have ht : (P1.take si.data.length).length = si.data.length := by
        rw [List.length_take, hP1]; omega
      have hd : (P1.drop si.data.length).length = dataTotal rest := by
        rw [List.length_drop, hP1]; omega
      have himg : T ++ D ++ P1 ++ P2
          = (T ++ D) ++ P1.take si.data.length ++ (P1.drop si.data.length ++ P2) := by
        conv_lhs => rw [hsplit]
        simp only [List.append_assoc]
      rw [himg, writeBytes_mid (T ++ D) _ _ si.data _ (by rw [List.length_append]) ht.symm]
      simp only [Option.some_bind]
      have := ih (i + 1) (D ++ si.data) (P1.drop si.data.length) hd hread2
      simpa only [payloadImage, List.append_assoc] using this

theorem archiveImage_length (items : List SourceItem) :
    (archiveImage items).length = 4 + 136 * items.length + dataTotal items := by
  simp only [archiveImage, List.length_append, le32_length, tableImage_length,
    payloadImage_length]

theorem two_pow_32_le (sz : Nat) (hsz : 32 ≤ sz) : 4294967296 ≤ 2 ^ sz := by
  have : 2 ^ 32 ≤ 2 ^ sz := Nat.pow_le_pow_right (by decide) hsz
  simpa using this

theorem foldl_size (sz : Nat) (items : List SourceItem) :
    ∀ acc, acc + dataTotal items < 2 ^ sz →
      items.foldl (fun a si => (a + si.data.length) % 2 ^ sz) acc = acc + dataTotal items := by
  induction items with
  | nil => intro acc _; simp [dataTotal]
  | cons si rest ih =>
    intro acc h
    simp only [dataTotal] at h
    have hlt : acc + si.data.length < 2 ^ sz := by omega
    rw [List.foldl_cons, Nat.mod_eq_of_lt hlt, ih _ (by omega)]
    simp only [dataTotal]
    omega

theorem totalSize_exact (sz : Nat) (items : List SourceItem)
    (h : 4 + 136 * items.length + dataTotal items < 2 ^ sz) :
    totalSize sz items = 4 + 136 * items.length + dataTotal items := by
  unfold totalSize
  have h1 : items.length * 136 % 2 ^ sz = items.length * 136 := Nat.mod_eq_of_lt (by omega)
  have h2 : (4 + items.length * 136) % 2 ^ sz = 4 + items.length * 136 :=
    Nat.mod_eq_of_lt (by omega)
  rw [h1, h2, foldl_size sz items _ (by omega)]
  omega

theorem create_length (fill : Nat → Byte) (size : Nat) :
    (MappedOutput.create fill size).length = size := by
  simp [MappedOutput.create]

theorem packImage_layout (sz : Nat) (init : List Byte) (items : List SourceItem)
    (hsz : 32 ≤ sz) (hinit : init.length = 4 + 136 * items.length + dataTotal items)
    (hfit : 4 + 136 * items.length + dataTotal items ≤ 4294967295) :
    packImage sz init items = some (archiveImage items) := by
  have h32 := two_pow_32_le sz hsz
  have hn : items.length % 4294967296 = items.length := Nat.mod_eq_of_lt (by omega)
  have hoff : (4 + (items.length * 136 % 2 ^ sz) % 4294967296) % 4294967296
      = 4 + 136 * items.length := by
    rw [Nat.mod_eq_of_lt (show items.length * 136 < 2 ^ sz by omega)]
    omega
  -- split the fresh view into header, table and payload regions
  have hsplit : init = [] ++ init.take 4 ++
      ((init.drop 4).take (136 * items.length) ++ (init.drop 4).drop (136 * items.length)) := by
    rw [List.take_append_drop, List.nil_append, List.take_append_drop]
  have hhd : (init.take 4).length = 4 := by rw [List.length_take]; omega
  have hmid : ((init.drop 4).take (136 * items.length)).length = 136 * items.length := by
    rw [List.length_take, List.length_drop]; omega
  have hpay : ((init.drop 4).drop (136 * items.length)).length = dataTotal items := by
    rw [List.length_drop, List.length_drop]; omega
  unfold packImage
  rw [hn, hoff]
  conv_lhs => rw [hsplit]
  rw [writeBytes_mid [] (init.take 4) _ (le32 items.length) 0 rfl (by rw [le32_length, hhd])]
  simp only [Option.some_bind, List.nil_append]
  rw [← List.append_assoc,
    writeTable_layout items (le32 items.length) _ _ 0 _ (by rw [le32_length]) hmid]
  simp only [Option.some_bind]
  have hread : ∀ k, k < items.length →
      readU32 (le32 items.length ++ tableImage items (4 + 136 * items.length))
        (4 + 136 * (0 + k) + 128)
      = some ((le32 items.length ++ tableImage items (4 + 136 * items.length)).length
          + ([] : List Byte).length + dataTotal (items.take k)) := by
    intro k hk
    obtain ⟨tail, ht⟩ := tableImage_drop items (le32 items.length) [] (4 + 136 * items.length) k hk
      (by omega)
    have hle := dataTotal_take_le items k
    have := itemImage_readOffset _ tail (4 + 136 * k) items[k]
      (4 + 136 * items.length + dataTotal (items.take k)) (by omega)
      (by simpa only [le32_length, List.append_nil] using ht)
    simp only [List.length_append, le32_length, tableImage_length, List.length_nil, Nat.zero_add,
      Nat.add_zero]
    exact this
  have := writeData_layout (le32 items.length ++ tableImage items (4 + 136 * items.length)) []
    items 0 [] _ hpay hread
  simpa only [List.append_nil, archiveImage] using this

theorem packArchive_layout (sz : Nat) (fill : Nat → Byte) (items : List SourceItem)
    (hsz : 32 ≤ sz) (hfit : 4 + 136 * items.length + dataTotal items ≤ 4294967295) :
    packArchive sz fill items = some (archiveImage items) := by
  have h32 := two_pow_32_le sz hsz
  unfold packArchive
  apply packImage_layout sz _ items hsz _ hfit
  rw [create_length, totalSize_exact sz items (by omega)]

theorem get?_of_drop (buf : List Byte) (p : Nat) (x : Byte) (t : List Byte)
    (h : buf.drop p = x :: t) : buf[p]? = some x ∧ buf.drop (p + 1) = t := by
  constructor
  · have : (buf.drop p).head? = some x := by rw [h]; rfl
    simpa [List.head?_drop] using this
  · have : (buf.drop p).tail = t := by rw [h]; rfl
    simpa [List.tail_drop] using this

theorem strnlen_run (buf : List Byte) (pfx : List Byte) :
    ∀ (p m : Nat) (tail : List Byte), buf.drop p = pfx ++ 0 :: tail → (∀ b ∈ pfx, b ≠ 0) →
      pfx.length < m → strnlen buf p m = some pfx.length := by
  induction pfx with
  | nil =>
    intro p m tail hd _ hm
    obtain ⟨m, rfl⟩ : ∃ m', m = m' + 1 := ⟨m - 1, by simp at hm; omega⟩
    have := (get?_of_drop buf p 0 tail (by simpa using hd)).1
    simp [strnlen, this]
  | cons x xs ih =>
    intro p m tail hd hnz hm
    obtain ⟨m, rfl⟩ : ∃ m', m = m' + 1 := ⟨m - 1, by simp at hm; omega⟩
    have hg := get?_of_drop buf p x (xs ++ 0 :: tail) (by simpa using hd)
    have hx : x ≠ 0 := hnz x (by simp)
    have := ih (p + 1) m tail hg.2 (fun b hb => hnz b (by simp [hb])) (by simpa using hm)
    simp [strnlen, hg.1, hx, this]

theorem strnlen_nameField (buf tail : List Byte) (p : Nat) (name : List Byte)
    (hd : buf.drop p = nameField name ++ tail)
    (hnz : ∀ b ∈ name.take (nameLen name), b ≠ 0) :
    strnlen buf p 128 = some (nameLen name) := by
  have hL := nameLen_le name
  have hz : List.replicate (128 - nameLen name) (0 : Byte)
      = 0 :: List.replicate (127 - nameLen name) 0 := by
    rw [show 128 - nameLen name = (127 - nameLen name) + 1 by omega, List.replicate_succ]
  have hlen : (name.take (nameLen name)).length = nameLen name := by
    rw [List.length_take]; omega
  have := strnlen_run buf (name.take (nameLen name)) p 128
    (List.replicate (127 - nameLen name) 0 ++ tail)
    (by rw [hd, nameField, hz, List.append_assoc]; rfl) hnz (by omega)
  rw [this, hlen]

theorem entryName_of_item (buf tail : List Byte) (i : Nat) (name : List Byte)
    (hd : buf.drop (4 + 136 * i) = nameField name ++ tail)
    (hnz : ∀ b ∈ name.take (nameLen name), b ≠ 0) :
    entryName buf i = some (name.take (nameLen name)) := by
  have hL := nameLen_le name
  unfold entryName
  rw [strnlen_nameField buf tail _ name hd hnz, Option.map_some', hd, nameField,
    List.append_assoc, List.take_append_of_le_length (by rw [List.length_take]; omega),
    List.take_take, Nat.min_self]

theorem checkEntries_accepted (buf : List Byte) (tb fc : Nat) :
    ∀ (remaining i : Nat) (reads : List Nat),
      (∀ k, i ≤ k → k < i + remaining → EntryPasses buf tb k) →
      (checkEntries buf tb fc remaining i reads).outcome = Outcome.accepted fc := by
  intro remaining
  induction remaining with
  | zero => intro i reads _; rfl
  | succ r ih =>
    intro i reads h
    obtain ⟨o, s, ho, hs, hrej⟩ := h i (Nat.le_refl i) (by omega)
    unfold entryDataOffset at ho
    unfold entryDataSize at hs
    simp only [checkEntries, ho, hs, hrej]
    exact ih (i + 1) _ (fun k hk1 hk2 => h k (by omega) (by omega))

theorem payloadImage_drop (items : List SourceItem) :
    ∀ (k : Nat) (hk : k < items.length),
      ∃ tail, (payloadImage items).drop (dataTotal (items.take k)) = items[k].data ++ tail := by
  induction items with
  | nil => intro k hk; simp at hk
  | cons si rest ih =>
    intro k hk
    cases k with
    | zero => exact ⟨payloadImage rest, by simp [payloadImage, dataTotal]⟩
    | succ k =>
      obtain ⟨tail, ht⟩ := ih k (by simpa using hk)
      refine ⟨tail, ?_⟩
      simp only [List.take_succ_cons, dataTotal, payloadImage, List.getElem_cons_succ,
        List.drop_append, ht]

theorem archiveImage_item (items : List SourceItem) (k : Nat) (hk : k < items.length)
    (hfit : 4 + 136 * items.length + dataTotal items ≤ 4294967295) :
    ∃ tail, (archiveImage items).drop (4 + 136 * k)
      = itemImage items[k] (4 + 136 * items.length + dataTotal (items.take k)) ++ tail := by
  have := tableImage_drop items (le32 items.length) (payloadImage items)
    (4 + 136 * items.length) k hk (by omega)
  simpa only [le32_length, archiveImage] using this

theorem archiveImage_readOffset (items : List SourceItem) (k : Nat) (hk : k < items.length)
    (hfit : 4 + 136 * items.length + dataTotal items ≤ 4294967295) :
    entryDataOffset (archiveImage items) k
      = some (4 + 136 * items.length + dataTotal (items.take k)) := by
  obtain ⟨tail, ht⟩ := archiveImage_item items k hk hfit
  have hle := dataTotal_take_le items k
  exact itemImage_readOffset _ tail (4 + 136 * k) items[k] _ (by omega) ht

theorem archiveImage_readSize (items : List SourceItem) (k : Nat) (hk : k < items.length)
    (hfit : 4 + 136 * items.length + dataTotal items ≤ 4294967295) :
    entryDataSize (archiveImage items) k = some items[k].data.length := by
  obtain ⟨tail, ht⟩ := archiveImage_item items k hk hfit
  have hle := dataTotal_getElem_le items k hk
  have := itemImage_readSize _ tail (4 + 136 * k) items[k] _ ht
  rw [Nat.mod_eq_of_lt (by omega)] at this
  exact this

theorem archiveImage_name (items : List SourceItem) (k : Nat) (hk : k < items.length)
    (hfit : 4 + 136 * items.length + dataTotal items ≤ 4294967295)
    (hnz : ∀ b ∈ items[k].wadName.take (nameLen items[k].wadName), b ≠ 0) :
    entryName (archiveImage items) k
      = some (items[k].wadName.take (nameLen items[k].wadName)) := by
  obtain ⟨tail, ht⟩ := archiveImage_item items k hk hfit
  obtain ⟨tail2, ht2⟩ := itemImage_readName _ tail (4 + 136 * k) items[k] _ ht
  exact entryName_of_item _ tail2 k _ ht2 hnz

theorem archiveImage_payload (items : List SourceItem) (k : Nat) (hk : k < items.length)
    (hfit : 4 + 136 * items.length + dataTotal items ≤ 4294967295) :
    entryPayload (archiveImage items) k = some items[k].data := by
  have hle := dataTotal_getElem_le items k hk
  unfold entryPayload
  rw [archiveImage_readOffset items k hk hfit, archiveImage_readSize items k hk hfit]
  obtain ⟨tail, ht⟩ := payloadImage_drop items k hk
  have hdrop : (archiveImage items).drop (4 + 136 * items.length + dataTotal (items.take k))
      = items[k].data ++ tail := by
    have hl : (le32 items.length ++ tableImage items (4 + 136 * items.length)).length
        = 4 + 136 * items.length := by
      rw [List.length_append, le32_length, tableImage_length]
    have hd := @List.drop_append Byte
      (le32 items.length ++ tableImage items (4 + 136 * items.length)) (payloadImage items)
      (dataTotal (items.take k))
    rw [hl] at hd
    rw [archiveImage, hd, ht]
  have hlen := archiveImage_length items
  simp only [readBytes]
  rw [if_pos (Or.inr (by omega)), hdrop, List.take_left]

theorem tableBytes_exact (sz fc : Nat) (h : 4 + 136 * fc < 2 ^ sz) :
    tableBytes sz fc = 4 + 136 * fc := by
  unfold tableBytes
  rw [Nat.mod_eq_of_lt (show fc * 136 < 2 ^ sz by omega), Nat.mod_eq_of_lt (by omega)]
  omega

theorem archiveImage_header (items : List SourceItem) (h : items.length < 4294967296) :
    readU32 (archiveImage items) 0 = some items.length :=
  readU32_of_drop _ 0 _ (tableImage items (4 + 136 * items.length) ++ payloadImage items) h
    (by rw [List.drop_zero, archiveImage, List.append_assoc])

theorem archiveImage_passes (items : List SourceItem) (k : Nat) (hk : k < items.length)
    (hfit : 4 + 136 * items.length + dataTotal items ≤ 4294967295) :
    EntryPasses (archiveImage items) (4 + 136 * items.length) k := by
  refine ⟨_, _, archiveImage_readOffset items k hk hfit, archiveImage_readSize items k hk hfit, ?_⟩
  have hle := dataTotal_getElem_le items k hk
  have hlen := archiveImage_length items
  simp only [entryRejected, entryEnd, Bool.or_eq_false_iff, decide_eq_false_iff_not, not_lt,
    Nat.not_lt, hlen, gt_iff_lt]
  constructor <;> omega

theorem archiveImage_validate (sz : Nat) (items : List SourceItem) (hsz : 32 ≤ sz)
    (hfit : 4 + 136 * items.length + dataTotal items ≤ 4294967295) :
    (validate sz (archiveImage items)).outcome = Outcome.accepted items.length := by
  have h32 := two_pow_32_le sz hsz
  have hlen := archiveImage_length items
  unfold validate
  rw [if_neg (by omega), archiveImage_header items (by omega)]
  simp only
  rw [tableBytes_exact sz _ (by omega), if_neg (by omega)]
  exact checkEntries_accepted _ _ _ _ 0 _
    (fun k _ hk => archiveImage_passes items k (by omega) hfit)


/-! ## The entry loop of the reader -/

theorem two_pow_40_le (sz : Nat) (hsz : 40 ≤ sz) : 1099511627776 ≤ 2 ^ sz := by
  have : 2 ^ 40 ≤ 2 ^ sz := Nat.pow_le_pow_right (by decide) hsz
  simpa using this

theorem checkEntries_not_header (buf : List Byte) (tb fc : Nat) :
    ∀ (remaining i : Nat) (reads : List Nat),
      (checkEntries buf tb fc remaining i reads).outcome ≠ Outcome.tableExceedsFile ∧
      (checkEntries buf tb fc remaining i reads).outcome ≠ Outcome.tooSmall := by
  intro remaining
  induction remaining with
  | zero => intro i reads; simp [checkEntries]
  | succ r ih =>
    intro i reads
    unfold checkEntries
    split
    · simp
    · split
      · simp
      · split
        · simp
        · exact ih _ _

theorem checkEntries_no_fault (buf : List Byte) (tb fc : Nat) :
    ∀ (remaining i : Nat) (reads : List Nat) (a : Nat),
      4 + 136 * (i + remaining) ≤ buf.length →
      (checkEntries buf tb fc remaining i reads).outcome ≠ Outcome.fault a := by
  intro remaining
  induction remaining with
  | zero => intro i reads a _; simp [checkEntries]
  | succ r ih =>
    intro i reads a hlen
    obtain ⟨o, ho⟩ := readU32_isSome buf (4 + 136 * i + 128) (by omega)
    obtain ⟨s, hs⟩ := readU32_isSome buf (4 + 136 * i + 132) (by omega)
    simp only [checkEntries, ho, hs]
    split
    · simp
    · exact ih _ _ a (by omega)

theorem checkEntries_reads (buf : List Byte) (tb fc : Nat) :
    ∀ (remaining i : Nat) (reads : List Nat) (r : Nat),
      r ∈ (checkEntries buf tb fc remaining i reads).reads →
      r ∈ reads ∨ ∃ k, i ≤ k ∧ k < i + remaining ∧
        (r = 4 + 136 * k + 128 ∨ r = 4 + 136 * k + 132) := by
  intro remaining
  induction remaining with
  | zero => intro i reads r h; exact Or.inl h
  | succ n ih =>
    intro i reads r h
    have hnew : ∀ r, r ∈ reads ++ [4 + 136 * i + 128, 4 + 136 * i + 132] →
        r ∈ reads ∨ ∃ k, i ≤ k ∧ k < i + (n + 1) ∧
          (r = 4 + 136 * k + 128 ∨ r = 4 + 136 * k + 132) := by
      intro r hr
      simp only [List.mem_append, List.mem_cons, List.mem_singleton, List.not_mem_nil,
        or_false] at hr
      rcases hr with hr | hr | hr
      · exact Or.inl hr
      · exact Or.inr ⟨i, Nat.le_refl _, by omega, Or.inl hr⟩
      · exact Or.inr ⟨i, Nat.le_refl _, by omega, Or.inr hr⟩
    unfold checkEntries at h
    split at h
    · simp only [List.mem_append, List.mem_singleton] at h
      rcases h with h | h
      · exact Or.inl h
      · exact Or.inr ⟨i, Nat.le_refl _, by omega, Or.inl h⟩
    · split at h
      · exact hnew r h
      · split at h
        · exact hnew r h
        · rcases ih _ _ r h with h | ⟨k, h1, h2, h3⟩
          · exact hnew r h
          · exact Or.inr ⟨k, by omega, by omega, h3⟩


/-! ## Claims about the writer and the round trip -/

theorem nameLen_short (name : List Byte) (h : name.length < 128) :
    name.take (nameLen name) = name := by
  rw [nameLen, if_neg (by omega), List.take_length]

/-- C1: for an ordered item list whose encoded names are shorter than 128 bytes and free of NUL
bytes and whose archive size `4 + 136*n + sum of data lengths` is at most `2^32 - 1`, the image
written by `PackFolder` is accepted by the validation of `ExtractWad` with exactly `n` entries,
and for every index `i` the decoded name of entry `i` is item `i`'s encoded name and the payload
slice `image[dataOffset .. dataOffset+dataSize)` is item `i`'s data. -/
theorem pack_extract_roundtrip (sz : Nat) (fill : Nat → Byte) (items : List SourceItem)
    (hsz : 32 ≤ sz)
    (hname : ∀ si ∈ items, si.wadName.length < 128 ∧ ∀ b ∈ si.wadName, b ≠ 0)
    (hfit : 4 + 136 * items.length + dataTotal items ≤ 4294967295) :
    ∃ img, packArchive sz fill items = some img ∧
      (validate sz img).outcome = Outcome.accepted items.length ∧
      ∀ i (hi : i < items.length),
        entryName img i = some items[i].wadName ∧
        entryPayload img i = some items[i].data := by
  refine ⟨archiveImage items, packArchive_layout sz fill items hsz hfit,
    archiveImage_validate sz items hsz hfit, fun i hi => ⟨?_, archiveImage_payload items i hi hfit⟩⟩
  obtain ⟨hlen, hnz⟩ := hname items[i] (List.getElem_mem hi)
  have := archiveImage_name items i hi hfit (by rw [nameLen_short _ hlen]; exact hnz)
  rwa [nameLen_short _ hlen] at this

theorem pack_extract_roundtrip_witness :
    ∃ img, packArchive 64 (fun _ => 255) scenarioItems = some img ∧
      (validate 64 img).outcome = Outcome.accepted scenarioItems.length ∧
      ∀ i (hi : i < scenarioItems.length),
        entryName img i = some scenarioItems[i].wadName ∧
        entryPayload img i = some scenarioItems[i].data :=
  pack_extract_roundtrip 64 (fun _ => 255) scenarioItems (by decide) (by decide) (by decide)

/-- C5: for an ordered list of `n` items whose archive size is at most `2^32 - 1`, the table
written by `PackFolder` has `dataOffset[0] = 4 + 136*n`, every `dataSize[i]` equal to the data
length of item `i`, and `dataOffset[i+1] = dataOffset[i] + dataSize[i]`; for items of sizes
`[3, 0]` the fields are `276, 3` and `279, 0`. -/
theorem writer_offset_assignment (sz : Nat) (fill : Nat → Byte) (items : List SourceItem)
    (hsz : 32 ≤ sz) (hfit : 4 + 136 * items.length + dataTotal items ≤ 4294967295) :
    ∃ img, packArchive sz fill items = some img ∧
      (0 < items.length → entryDataOffset img 0 = some (4 + 136 * items.length)) ∧
      (∀ i (hi : i < items.length), entryDataSize img i = some items[i].data.length) ∧
      (∀ i, i + 1 < items.length → ∃ o s, entryDataOffset img i = some o ∧
        entryDataSize img i = some s ∧ entryDataOffset img (i + 1) = some (o + s)) ∧
      (items.map (fun si => si.data.length) = [3, 0] →
        entryDataOffset img 0 = some 276 ∧ entryDataSize img 0 = some 3 ∧
        entryDataOffset img 1 = some 279 ∧ entryDataSize img 1 = some 0) := by
  refine ⟨archiveImage items, packArchive_layout sz fill items hsz hfit, ?_, ?_, ?_, ?_⟩
  · intro h0
    have := archiveImage_readOffset items 0 h0 hfit
    simpa [dataTotal] using this
  · intro i hi
    exact archiveImage_readSize items i hi hfit
  · intro i hi
    refine ⟨_, _, archiveImage_readOffset items i (by omega) hfit,
      archiveImage_readSize items i (by omega) hfit, ?_⟩
    rw [archiveImage_readOffset items (i + 1) hi hfit, dataTotal_take_succ items i (by omega)]
    congr 1
    omega
  · intro hsizes
    have hl : items.length = 2 := by
      have := congrArg List.length hsizes
      simpa using this
    obtain ⟨a, b, rfl⟩ := List.length_eq_two.mp hl
    · simp only [List.map_cons, List.map_nil, List.cons.injEq, and_true] at hsizes
      have h0 := archiveImage_readOffset [a, b] 0 (by simp) hfit
      have h1 := archiveImage_readOffset [a, b] 1 (by simp) hfit
      have s0 := archiveImage_readSize [a, b] 0 (by simp) hfit
      have s1 := archiveImage_readSize [a, b] 1 (by simp) hfit
      simp only [List.length_cons, List.length_nil, List.take_zero, dataTotal,
        List.take_succ_cons, List.getElem_cons_zero, List.getElem_cons_succ, hsizes.1,
        hsizes.2] at h0 h1 s0 s1
      exact ⟨h0, s0, h1, s1⟩

theorem writer_offset_assignment_witness :
    ∃ img, packArchive 64 (fun _ => 255) scenarioItems = some img ∧
      (0 < scenarioItems.length →
        entryDataOffset img 0 = some (4 + 136 * scenarioItems.length)) ∧
      (∀ i (hi : i < scenarioItems.length),
        entryDataSize img i = some scenarioItems[i].data.length) ∧
      (∀ i, i + 1 < scenarioItems.length → ∃ o s, entryDataOffset img i = some o ∧
        entryDataSize img i = some s ∧ entryDataOffset img (i + 1) = some (o + s)) ∧
      (scenarioItems.map (fun si => si.data.length) = [3, 0] →
        entryDataOffset img 0 = some 276 ∧ entryDataSize img 0 = some 3 ∧
        entryDataOffset img 1 = some 279 ∧ entryDataSize img 1 = some 0) :=
  writer_offset_assignment 64 (fun _ => 255) scenarioItems (by decide) (by decide)

theorem dataTotal_take_all (items : List SourceItem) :
    dataTotal (items.take items.length) = dataTotal items := by
  rw [List.take_length]

theorem dataTotal_of_sizes (items : List SourceItem) (a b : Nat)
    (h : items.map (fun si => si.data.length) = [a, b]) :
    items.length = 2 ∧ dataTotal items = a + b := by
  have hl : items.length = 2 := by
    have := congrArg List.length h
    simpa using this
  obtain ⟨x, y, rfl⟩ := List.length_eq_two.mp hl
  simp only [List.map_cons, List.map_nil, List.cons.injEq, and_true] at h
  simp [dataTotal, h.1, h.2]

/-- C6: when the item list fits the address space (`4 + 136*n + sum of data lengths` is
below `2^sz`), the size passed to `MappedOutput::create` is exactly that number, 279 for items
of sizes `[3, 0]`; and when it is at most `2^32 - 1`, the written image has that length, the
first payload starts at `4 + 136*n`, each next payload starts where the previous one ends, and
the last payload ends exactly at `totalSize`. -/
theorem writer_presizing (sz : Nat) (fill : Nat → Byte) (items : List SourceItem)
    (hmem : 4 + 136 * items.length + dataTotal items < 2 ^ sz) :
    totalSize sz items = 4 + 136 * items.length + dataTotal items ∧
    (MappedOutput.create fill (totalSize sz items)).length
      = 4 + 136 * items.length + dataTotal items ∧
    (items.map (fun si => si.data.length) = [3, 0] → totalSize sz items = 279) ∧
    (32 ≤ sz → 4 + 136 * items.length + dataTotal items ≤ 4294967295 →
      ∃ img, packArchive sz fill items = some img ∧ img.length = totalSize sz items ∧
        img.drop (4 + 136 * items.length) = payloadImage items ∧
        ∀ i (hi : i < items.length), ∃ o s,
          entryDataOffset img i = some o ∧ entryDataSize img i = some s ∧
          s = items[i].data.length ∧
          (i = 0 → o = 4 + 136 * items.length) ∧
          (i + 1 < items.length → entryDataOffset img (i + 1) = some (o + s)) ∧
          (i + 1 = items.length → o + s = totalSize sz items)) := by
  have hT := totalSize_exact sz items hmem
  refine ⟨hT, by rw [create_length, hT], ?_, ?_⟩
  · intro hs
    obtain ⟨hl, hd⟩ := dataTotal_of_sizes items 3 0 hs
    rw [hT, hl, hd]
  · intro hsz hfit
    refine ⟨archiveImage items, packArchive_layout sz fill items hsz hfit,
      by rw [archiveImage_length, hT], ?_, fun i hi => ?_⟩
    · have hl : (le32 items.length ++ tableImage items (4 + 136 * items.length)).length
          = 4 + 136 * items.length := by
        rw [List.length_append, le32_length, tableImage_length]
      have hd := List.drop_left (le32 items.length ++ tableImage items (4 + 136 * items.length))
        (payloadImage items)
      rw [hl] at hd
      rw [archiveImage, hd]
    · refine ⟨_, _, archiveImage_readOffset items i hi hfit, archiveImage_readSize items i hi hfit,
        rfl, ?_, ?_, ?_⟩
      · intro h0
        subst h0
        simp [dataTotal]
      · intro hi2
        rw [archiveImage_readOffset items (i + 1) hi2 hfit, dataTotal_take_succ items i hi]
        congr 1
        omega
      · intro hlast
        rw [hT, ← dataTotal_take_all items, ← hlast, dataTotal_take_succ items i hi]
        omega

theorem writer_presizing_witness :
    totalSize 64 scenarioItems = 4 + 136 * scenarioItems.length + dataTotal scenarioItems ∧
    (MappedOutput.create (fun _ => 255) (totalSize 64 scenarioItems)).length
      = 4 + 136 * scenarioItems.length + dataTotal scenarioItems ∧
    (scenarioItems.map (fun si => si.data.length) = [3, 0] → totalSize 64 scenarioItems = 279) ∧
    (32 ≤ 64 → 4 + 136 * scenarioItems.length + dataTotal scenarioItems ≤ 4294967295 →
      ∃ img, packArchive 64 (fun _ => 255) scenarioItems = some img ∧
        img.length = totalSize 64 scenarioItems ∧
        img.drop (4 + 136 * scenarioItems.length) = payloadImage scenarioItems ∧
        ∀ i (hi : i < scenarioItems.length), ∃ o s,
          entryDataOffset img i = some o ∧ entryDataSize img i = some s ∧
          s = scenarioItems[i].data.length ∧
          (i = 0 → o = 4 + 136 * scenarioItems.length) ∧
          (i + 1 < scenarioItems.length → entryDataOffset img (i + 1) = some (o + s)) ∧
          (i + 1 = scenarioItems.length → o + s = totalSize 64 scenarioItems)) :=
  writer_presizing 64 (fun _ => 255) scenarioItems (by decide)

theorem layout_congr (items items' : List SourceItem)
    (h : items'.map (fun si => (si.wadName, si.data)) = items.map (fun si => (si.wadName, si.data))) :
    items'.length = items.length ∧ dataTotal items' = dataTotal items ∧
    payloadImage items' = payloadImage items ∧
    ∀ offset, tableImage items' offset = tableImage items offset := by
  induction items generalizing items' with
  | nil =>
    have : items' = [] := by simpa using h
    subst this
    simp
  | cons si rest ih =>
    match items', h with
    | [], h => simp at h
    | si' :: rest', h =>
      simp only [List.map_cons, List.cons.injEq, Prod.mk.injEq] at h
      obtain ⟨⟨hn, hd⟩, hrest⟩ := h
      obtain ⟨h1, h2, h3, h4⟩ := ih rest' hrest
      refine ⟨by simp [h1], by simp [dataTotal, h2, hd], by simp [payloadImage, h3, hd], ?_⟩
      intro offset
      simp only [tableImage, itemImage, hn, hd, h4]

theorem archiveImage_congr (items items' : List SourceItem)
    (h : items'.map (fun si => (si.wadName, si.data)) = items.map (fun si => (si.wadName, si.data))) :
    archiveImage items' = archiveImage items := by
  obtain ⟨h1, _, h3, h4⟩ := layout_congr items items' h
  simp only [archiveImage, h1, h3, h4]

/-- C8: for an ordered item list whose archive size is at most `2^32 - 1`, the image written by
`PackFolder` is the header, the table entries (names zero-padded) and the payloads laid end to
end, of length `totalSize`; it is the same for every initial content of the pre-sized storage
and for every item list with the same ordered (encoded name, data) pairs. -/
theorem writer_determinism (sz : Nat) (fill : Nat → Byte) (items : List SourceItem)
    (hsz : 32 ≤ sz) (hfit : 4 + 136 * items.length + dataTotal items ≤ 4294967295) :
    ∃ img, packArchive sz fill items = some img ∧
      img.length = totalSize sz items ∧
      img = le32 items.length ++ tableImage items (4 + 136 * items.length)
        ++ payloadImage items ∧
      ∀ (fill' : Nat → Byte) (items' : List SourceItem),
        items'.map (fun si => (si.wadName, si.data))
          = items.map (fun si => (si.wadName, si.data)) →
        packArchive sz fill' items' = some img := by
  have h32 := two_pow_32_le sz hsz
  refine ⟨archiveImage items, packArchive_layout sz fill items hsz hfit, ?_, rfl, ?_⟩
  · rw [archiveImage_length, totalSize_exact sz items (by omega)]
  · intro fill' items' hsame
    obtain ⟨h1, h2, _, _⟩ := layout_congr items items' hsame
    rw [← archiveImage_congr items items' hsame]
    exact packArchive_layout sz fill' items' hsz (by rw [h1, h2]; exact hfit)

theorem writer_determinism_witness :
    ∃ img, packArchive 64 (fun _ => 255) scenarioItems = some img ∧
      img.length = totalSize 64 scenarioItems ∧
      img = le32 scenarioItems.length ++ tableImage scenarioItems (4 + 136 * scenarioItems.length)
        ++ payloadImage scenarioItems ∧
      ∀ (fill' : Nat → Byte) (items' : List SourceItem),
        items'.map (fun si => (si.wadName, si.data))
          = scenarioItems.map (fun si => (si.wadName, si.data)) →
        packArchive 64 fill' items' = some img :=
  writer_determinism 64 (fun _ => 255) scenarioItems (by decide) (by decide)


/-! ## Beyond the 32-bit size limit

Two items whose data lengths are `2^32 - 272` and `1`: the running `uint32_t offset` wraps to 4,
so the second payload copy lands on the first byte of the table. -/

theorem packImage_beyond_limit (init : List Byte) (a b : SourceItem) (x : Byte)
    (ha : a.data.length = 4294967024) (hb : b.data = [x])
    (hinit : init.length = 4294967301) :
    packImage 64 init [a, b]
      = some (le32 2 ++ (x :: (itemImage a 276).drop 1) ++ itemImage b 4 ++ a.data
          ++ init.drop 4294967300) := by
  -- regions of the fresh view
  have hsplit : init = [] ++ init.take 4 ++
      ((init.drop 4).take 272 ++ (init.drop 4).drop 272) := by
    rw [List.take_append_drop, List.nil_append, List.take_append_drop]
  have hhd : (init.take 4).length = 4 := by rw [List.length_take]; omega
  have hmid : ((init.drop 4).take 272).length = 136 * [a, b].length := by
    rw [List.length_take, List.length_drop]; simp; omega
  unfold packImage
  have hn : [a, b].length % 4294967296 = 2 := rfl
  have hoff : (4 + ([a, b].length * 136 % 2 ^ 64) % 4294967296) % 4294967296 = 276 := by
    norm_num
  rw [hn, hoff]
  conv_lhs => rw [hsplit]
  rw [writeBytes_mid [] (init.take 4) _ (le32 2) 0 rfl (by rw [le32_length, hhd])]
  simp only [Option.some_bind, List.nil_append]
  rw [← List.append_assoc, writeTable_layout [a, b] (le32 2) _ _ 0 276 (by rw [le32_length]) hmid]
  simp only [Option.some_bind]
  have hwrap : (276 + a.data.length % 4294967296) % 4294967296 = 4 := by rw [ha]
  have htab : tableImage [a, b] 276 = itemImage a 276 ++ itemImage b 4 := by
    simp only [tableImage, hwrap, List.append_nil]
  rw [htab]
  -- the payload loop, first item: the copy goes to offset 276
  generalize hP : (init.drop 4).drop 272 = P
  have hPlen : P.length = 4294967025 := by
    rw [← hP, List.length_drop, List.length_drop]; omega
  have hr0 : readU32 (le32 2 ++ (itemImage a 276 ++ itemImage b 4) ++ P) (4 + 136 * 0 + 128)
      = some 276 := by
    apply itemImage_readOffset _ (itemImage b 4 ++ P) 4 a 276 (by decide)
    rw [List.append_assoc, ← le32_length 2, List.drop_left, List.append_assoc]
  have hane : a.data.isEmpty = false := by
    cases hd : a.data with
    | nil => rw [hd] at ha; simp at ha
    | cons _ _ => rfl
  rw [writeData_cons, hr0]
  simp only [Option.some_bind, hane, Bool.false_eq_true, if_false]
  have hTlen : (le32 2 ++ (itemImage a 276 ++ itemImage b 4)).length = 276 := by
    simp only [List.length_append, le32_length, itemImage_length]
  have hPsplit : P = P.take a.data.length ++ P.drop a.data.length :=
    (List.take_append_drop _ P).symm
  have hPt : (P.take a.data.length).length = a.data.length := by
    rw [List.length_take, hPlen, ha]; omega
  have e1 : le32 2 ++ (itemImage a 276 ++ itemImage b 4) ++ P
      = (le32 2 ++ (itemImage a 276 ++ itemImage b 4)) ++ P.take a.data.length
        ++ P.drop a.data.length := by
    conv_lhs => rw [hPsplit]
    simp only [List.append_assoc]
  rw [e1, writeBytes_mid _ (P.take a.data.length) _ a.data 276 hTlen.symm hPt.symm]
  simp only [Option.some_bind]
  -- second item: its `dataOffset` field holds the wrapped value 4
  have hr1 : readU32 (le32 2 ++ (itemImage a 276 ++ itemImage b 4) ++ a.data
      ++ P.drop a.data.length) (4 + 136 * (0 + 1) + 128) = some 4 := by
    apply itemImage_readOffset _ (a.data ++ P.drop a.data.length) 140 b 4 (by decide)
    have hl : (le32 2 ++ itemImage a 276).length = 140 := by
      rw [List.length_append, le32_length, itemImage_length]
    have e : le32 2 ++ (itemImage a 276 ++ itemImage b 4) ++ a.data ++ P.drop a.data.length
        = (le32 2 ++ itemImage a 276) ++ (itemImage b 4 ++ (a.data ++ P.drop a.data.length)) := by
      simp only [List.append_assoc]
    rw [e, ← hl, List.drop_left]
  rw [writeData_cons, hr1]
  simp only [Option.some_bind, hb, List.isEmpty_cons, Bool.false_eq_true, if_false]
  have hIsplit : itemImage a 276 = (itemImage a 276).take 1 ++ (itemImage a 276).drop 1 :=
    (List.take_append_drop 1 _).symm
  have hIt : ((itemImage a 276).take 1).length = 1 := by
    rw [List.length_take, itemImage_length]; rfl
  have e2 : le32 2 ++ (itemImage a 276 ++ itemImage b 4) ++ a.data ++ P.drop a.data.length
      = le32 2 ++ (itemImage a 276).take 1
        ++ ((itemImage a 276).drop 1 ++ itemImage b 4 ++ a.data ++ P.drop a.data.length) := by
    conv_lhs => rw [hIsplit]
    simp only [List.append_assoc]
  rw [e2, writeBytes_mid (le32 2) ((itemImage a 276).take 1) _ [x] 4 (le32_length 2).symm
    (by rw [hIt]; rfl)]
  simp only [Option.some_bind, writeData]
  have hdrop : P.drop a.data.length = init.drop 4294967300 := by
    rw [← hP, List.drop_drop, List.drop_drop, ha]
  rw [hdrop]
  simp only [List.append_assoc, List.cons_append, List.nil_append, List.singleton_append]

theorem payload_copy_lands_on_table (fill : Nat → Byte) (a b : SourceItem) (x : Byte)
    (ha : a.data.length = 4294967024) (hb : b.data = [x]) :
    totalSize 64 [a, b] = 4294967301 ∧
    ∃ img, packArchive 64 fill [a, b] = some img ∧ entryDataOffset img 1 = some 4 ∧
      img[4]? = some x := by
  have hdt : dataTotal [a, b] = 4294967025 := by
    simp only [dataTotal, ha, hb, List.length_singleton]
  have hT : totalSize 64 [a, b] = 4294967301 := by
    rw [totalSize_exact 64 [a, b] (by rw [hdt]; norm_num), hdt]
    simp only [List.length_cons, List.length_nil]
  refine ⟨hT, le32 2 ++ (x :: (itemImage a 276).drop 1) ++ itemImage b 4 ++ a.data
    ++ (MappedOutput.create fill (totalSize 64 [a, b])).drop 4294967300, ?_, ?_, ?_⟩
  · unfold packArchive
    exact packImage_beyond_limit _ a b x ha hb (by rw [create_length, hT])
  · have hl : (le32 2 ++ (x :: (itemImage a 276).drop 1)).length = 140 := by
      rw [List.length_append, le32_length, List.length_cons, List.length_drop, itemImage_length]
    apply itemImage_readOffset _
      (a.data ++ (MappedOutput.create fill (totalSize 64 [a, b])).drop 4294967300) 140 b 4
      (by decide)
    rw [List.append_assoc, List.append_assoc, ← hl, List.drop_left]
  · simp only [List.append_assoc, List.cons_append]
    rw [List.getElem?_append_right (by rw [le32_length]), le32_length]
    simp only [Nat.sub_self, List.getElem?_cons_zero]


/-! ## Claims about the reader's validation -/

theorem validate_eq (sz : Nat) (buf : List Byte) (fc : Nat) (hsz : 40 ≤ sz)
    (hlen : 4 ≤ buf.length) (hfc : readU32 buf 0 = some fc) :
    validate sz buf =
      if 4 + 136 * fc > buf.length then ⟨Outcome.tableExceedsFile, [0]⟩
      else checkEntries buf (4 + 136 * fc) fc fc 0 [0] := by
  have h40 := two_pow_40_le sz hsz
  have hb := (readU32_some_bound buf 0 fc hfc).1
  unfold validate
  rw [if_neg (by omega), hfc]
  simp only
  rw [tableBytes_exact sz fc (by omega)]

/-- C2 fails on the code: the 140-byte view `wrappedEntryView` is accepted by the validation of
`ExtractWad` (on a 64-bit as on a 32-bit `size_t`), although its entry 0 has
`dataOffset + dataSize = 140 + 4294967295`, far beyond the file size 140; the source range of
the subsequent `out.write` leaves the mapped view. -/
theorem entry_bounds_sum_wraps :
    wrappedEntryView.length = 140 ∧
    (validate 64 wrappedEntryView).outcome = Outcome.accepted 1 ∧
    (validate 32 wrappedEntryView).outcome = Outcome.accepted 1 ∧
    entryDataOffset wrappedEntryView 0 = some 140 ∧
    entryDataSize wrappedEntryView 0 = some 4294967295 ∧
    ¬ (140 + 4294967295 ≤ wrappedEntryView.length) ∧
    entryEnd 140 4294967295 = 139 ∧
    entryPayload wrappedEntryView 0 = none := by
  set_option maxRecDepth 100000 in decide

theorem tableBytes_wraps_at_32_bits :
    tableBytes 32 536870912 = 4 ∧
    (validate 32 (le32 536870912)).outcome = Outcome.fault 132 := by
  decide

/-- C3: on a target whose `size_t` has at least 40 bits (every 64-bit target), for every view of
at least 4 bytes with header field `fileCount`, the validation of `ExtractWad` ends with
`TableExceedsFile` exactly when `4 + 136*fileCount > fileSize` as exact integers; a header
claiming `0xFFFFFFFF` entries is rejected so for every file size below `4 + 136*(2^32 - 1)`;
on that rejection only the header field has been loaded, and every load of a table field
happens after the check has passed and lies inside the view. -/
theorem table_check_overflow_safe (sz : Nat) (buf : List Byte) (hsz : 40 ≤ sz)
    (hlen : 4 ≤ buf.length) :
    ∃ fc, readU32 buf 0 = some fc ∧ fc < 4294967296 ∧
      ((validate sz buf).outcome = Outcome.tableExceedsFile ↔ 4 + 136 * fc > buf.length) ∧
      (fc = 4294967295 → buf.length < 4 + 136 * 4294967295 →
        (validate sz buf).outcome = Outcome.tableExceedsFile) ∧
      ((validate sz buf).outcome = Outcome.tableExceedsFile → (validate sz buf).reads = [0]) ∧
      (∀ r ∈ (validate sz buf).reads, r ≠ 0 →
        4 + 136 * fc ≤ buf.length ∧ 4 ≤ r ∧ r + 4 ≤ buf.length) := by
  obtain ⟨fc, hfc⟩ := readU32_isSome buf 0 (by omega)
  have hb := (readU32_some_bound buf 0 fc hfc).1
  have hv := validate_eq sz buf fc hsz hlen hfc
  have hiff : (validate sz buf).outcome = Outcome.tableExceedsFile ↔ 4 + 136 * fc > buf.length := by
    rw [hv]
    constructor
    · intro h
      by_contra hn
      rw [if_neg hn] at h
      exact (checkEntries_not_header buf _ fc fc 0 [0]).1 h
    · intro h
      rw [if_pos h]
  refine ⟨fc, hfc, hb, hiff, ?_, ?_, ?_⟩
  · intro h1 h2
    exact hiff.mpr (by omega)
  · intro h
    have := hiff.mp h
    rw [hv, if_pos this]
  · intro r hr hr0
    rw [hv] at hr
    by_cases hc : 4 + 136 * fc > buf.length
    · rw [if_pos hc] at hr
      simp only [List.mem_singleton] at hr
      exact absurd hr hr0
    · rw [if_neg hc] at hr
      rcases checkEntries_reads buf _ fc fc 0 [0] r hr with h | ⟨k, _, hk, h | h⟩
      · simp only [List.mem_singleton] at h
        exact absurd h hr0
      · exact ⟨by omega, by omega, by omega⟩
      · exact ⟨by omega, by omega, by omega⟩

theorem table_check_overflow_safe_witness :
    ∃ fc, readU32 hugeCountView 0 = some fc ∧ fc < 4294967296 ∧
      ((validate 64 hugeCountView).outcome = Outcome.tableExceedsFile
        ↔ 4 + 136 * fc > hugeCountView.length) ∧
      (fc = 4294967295 → hugeCountView.length < 4 + 136 * 4294967295 →
        (validate 64 hugeCountView).outcome = Outcome.tableExceedsFile) ∧
      ((validate 64 hugeCountView).outcome = Outcome.tableExceedsFile →
        (validate 64 hugeCountView).reads = [0]) ∧
      (∀ r ∈ (validate 64 hugeCountView).reads, r ≠ 0 →
        4 + 136 * fc ≤ hugeCountView.length ∧ 4 ≤ r ∧ r + 4 ≤ hugeCountView.length) :=
  table_check_overflow_safe 64 hugeCountView (by decide) (by decide)

/-- C10, as stated, fails: on a 2-byte file the validation ends with `TooSmall`, and the effects
of `ExtractWad` contain `SetProgress(0)`, which is neither the error report nor a log line. -/
theorem validation_failure_resets_progress :
    (validate 64 [1, 2]).outcome = Outcome.tooSmall ∧
    Event.setProgress 0 ∈ ExtractWad 64 (sampleWorld [1, 2] 0) "x.wad" ∧
    ¬ (∀ e ∈ ExtractWad 64 (sampleWorld [1, 2] 0) "x.wad", e.isReport = true) := by
  refine ⟨by decide, by decide, fun h => ?_⟩
  have := h (Event.setProgress 0) (by decide)
  exact absurd this (by decide)

/-- C10, amended: for every view on which the validation ends with `TooSmall`,
`TableExceedsFile` or `CorruptEntry`, `ExtractWad` returns without asking for overwrite
confirmation, creating a directory or writing a file; its effects are the first log line, the
progress reset `SetProgress(0)` made on entry, and the error report with its log line. -/
theorem validation_failure_effects (sz : Nat) (w : World) (wadPath : String) (buf : List Byte)
    (hmap : w.mapFile wadPath = some buf)
    (hfail : (validate sz buf).outcome = Outcome.tooSmall ∨
      (validate sz buf).outcome = Outcome.tableExceedsFile ∨
      ∃ i, (validate sz buf).outcome = Outcome.corruptEntry i) :
    ∃ msg, ExtractWad sz w wadPath
        = [Event.log "Reading WAD header", Event.setProgress 0, Event.errorBox msg,
           Event.log ("ERROR: " ++ msg)] ∧
      ∀ e ∈ ExtractWad sz w wadPath,
        e.touchesDestination = false ∧ (e = Event.setProgress 0 ∨ e.isReport = true) := by
  have hshape : ∃ msg, ExtractWad sz w wadPath
      = [Event.log "Reading WAD header", Event.setProgress 0, Event.errorBox msg,
         Event.log ("ERROR: " ++ msg)] := by
    rcases hfail with h | h | ⟨i, h⟩
    · exact ⟨"Invalid WAD file.", by simp only [ExtractWad, hmap, h, ShowError]; rfl⟩
    · exact ⟨"Invalid WAD: header/table exceeds file size.",
        by simp only [ExtractWad, hmap, h, ShowError]; rfl⟩
    · exact ⟨"Invalid WAD: corrupt offsets or sizes.",
        by simp only [ExtractWad, hmap, h, ShowError]; rfl⟩
  obtain ⟨msg, hmsg⟩ := hshape
  refine ⟨msg, hmsg, fun e he => ?_⟩
  rw [hmsg] at he
  simp only [List.mem_cons, List.mem_singleton, List.not_mem_nil, or_false] at he
  rcases he with rfl | rfl | rfl | rfl
  · exact ⟨rfl, Or.inr rfl⟩
  · exact ⟨rfl, Or.inl rfl⟩
  · exact ⟨rfl, Or.inr rfl⟩
  · exact ⟨rfl, Or.inr rfl⟩

theorem validation_failure_effects_witness :
    ∃ msg, ExtractWad 64 (sampleWorld corruptSecondView 0) "x.wad"
        = [Event.log "Reading WAD header", Event.setProgress 0, Event.errorBox msg,
           Event.log ("ERROR: " ++ msg)] ∧
      ∀ e ∈ ExtractWad 64 (sampleWorld corruptSecondView 0) "x.wad",
        e.touchesDestination = false ∧ (e = Event.setProgress 0 ∨ e.isReport = true) :=
  validation_failure_effects 64 (sampleWorld corruptSecondView 0) "x.wad" corruptSecondView rfl
    (Or.inr (Or.inr ⟨1, by set_option maxRecDepth 100000 in decide⟩))


/-! ## Reader tolerance and offset order -/

/-- C12: every view that fits the address space, has at least 4 bytes, whose header and table
region `4 + 136*fileCount` lies inside the file and whose entries all satisfy
`tableRegionEnd <= dataOffset` and `dataOffset + dataSize <= fileSize` (exact sum) is accepted
by the validation of `ExtractWad`; nothing is asked about the order of the offsets, gaps or
overlaps. -/
theorem reader_tolerance (sz : Nat) (buf : List Byte) (fc : Nat)
    (hview : buf.length < 2 ^ sz) (hlen : 4 ≤ buf.length) (hfc : readU32 buf 0 = some fc)
    (htab : 4 + 136 * fc ≤ buf.length)
    (hent : ∀ i, i < fc → ∀ o s, entryDataOffset buf i = some o →
      entryDataSize buf i = some s → 4 + 136 * fc ≤ o ∧ o + s ≤ buf.length) :
    (validate sz buf).outcome = Outcome.accepted fc := by
  unfold validate
  rw [if_neg (by omega), hfc]
  simp only
  rw [tableBytes_exact sz fc (by omega), if_neg (by omega)]
  apply checkEntries_accepted
  intro k _ hk
  obtain ⟨o, ho⟩ := readU32_isSome buf (4 + 136 * k + 128) (by omega)
  obtain ⟨s, hs⟩ := readU32_isSome buf (4 + 136 * k + 132) (by omega)
  obtain ⟨h1, h2⟩ := hent k (by omega) o s ho hs
  refine ⟨o, s, ho, hs, ?_⟩
  have hmod : (o + s) % 4294967296 ≤ o + s := Nat.mod_le _ _
  simp only [entryRejected, entryEnd, Bool.or_eq_false_iff, decide_eq_false_iff_not, not_lt,
    gt_iff_lt]
  constructor <;> omega

theorem tolerantView_fields :
    tolerantView.length = 416 ∧
    entryDataOffset tolerantView 0 = some 416 ∧ entryDataSize tolerantView 0 = some 0 ∧
    entryDataOffset tolerantView 1 = some 414 ∧ entryDataSize tolerantView 1 = some 2 ∧
    entryDataOffset tolerantView 2 = some 413 ∧ entryDataSize tolerantView 2 = some 2 := by
  set_option maxRecDepth 100000 in decide

theorem reader_tolerance_witness :
    (validate 64 (le32 0)).outcome = Outcome.accepted 0 ∧
    (validate 64 tolerantView).outcome = Outcome.accepted 3 :=
  ⟨by decide,
    reader_tolerance 64 tolerantView 3
      (by rw [tolerantView_fields.1]; decide) (by rw [tolerantView_fields.1]; decide)
      (by set_option maxRecDepth 100000 in decide) (by rw [tolerantView_fields.1]; omega)
      (fun i hi o s ho hs => by
        obtain ⟨hl, o0, s0, o1, s1, o2, s2⟩ := tolerantView_fields
        rw [hl]
        interval_cases i
        · rw [o0] at ho; rw [s0] at hs; cases ho; cases hs; omega
        · rw [o1] at ho; rw [s1] at hs; cases ho; cases hs; omega
        · rw [o2] at ho; rw [s2] at hs; cases ho; cases hs; omega)⟩

theorem dataTotal_take_mono (items : List SourceItem) :
    ∀ (i j : Nat), i ≤ j → dataTotal (items.take i) ≤ dataTotal (items.take j) := by
  induction items with
  | nil => intro i j _; simp [dataTotal]
  | cons si rest ih =>
    intro i j hij
    cases i with
    | zero => simp [dataTotal]
    | succ i =>
      cases j with
      | zero => omega
      | succ j =>
        have := ih i j (by omega)
        simp only [List.take_succ_cons, dataTotal]
        omega

/-- C15, as stated, fails: for the items of `emptyFirstItems` (sizes 0 and 1, archive size 277)
the written table has `dataOffset[0] = dataOffset[1] = 276`, so the offsets are not strictly
increasing. -/
theorem offsets_equal_after_empty_item :
    4 + 136 * emptyFirstItems.length + dataTotal emptyFirstItems ≤ 4294967295 ∧
    ∃ img, packArchive 64 (fun _ => 255) emptyFirstItems = some img ∧
      entryDataOffset img 0 = some 276 ∧ entryDataOffset img 1 = some 276 ∧
      ¬ (∀ i j oi oj, i < j → j < emptyFirstItems.length → entryDataOffset img i = some oi →
          entryDataOffset img j = some oj → oi < oj) := by
  have hfit : 4 + 136 * emptyFirstItems.length + dataTotal emptyFirstItems ≤ 4294967295 := by
    decide
  have h0 : entryDataOffset (archiveImage emptyFirstItems) 0 = some 276 :=
    archiveImage_readOffset emptyFirstItems 0 (by decide) hfit
  have h1 : entryDataOffset (archiveImage emptyFirstItems) 1 = some 276 :=
    archiveImage_readOffset emptyFirstItems 1 (by decide) hfit
  refine ⟨hfit, archiveImage emptyFirstItems,
    packArchive_layout 64 _ emptyFirstItems (by decide) hfit, h0, h1, fun h => ?_⟩
  exact absurd (h 0 1 276 276 (by decide) (by decide) h0 h1) (by decide)

/-- C15, amended: in every archive written from an ordered item list of total size at most
`2^32 - 1`, the `dataOffset` values are non-decreasing in table order: for all `i < j`,
`dataOffset[i] <= dataOffset[j]`, with `dataOffset[i] < dataOffset[j]` whenever item `i` has
non-empty data. -/
theorem offsets_monotone (sz : Nat) (fill : Nat → Byte) (items : List SourceItem)
    (hsz : 32 ≤ sz) (hfit : 4 + 136 * items.length + dataTotal items ≤ 4294967295) :
    ∃ img, packArchive sz fill items = some img ∧
      ∀ i j (hi : i < j) (hj : j < items.length), ∃ oi oj,
        entryDataOffset img i = some oi ∧ entryDataOffset img j = some oj ∧ oi ≤ oj ∧
        (items[i].data ≠ [] → oi < oj) := by
  refine ⟨archiveImage items, packArchive_layout sz fill items hsz hfit, fun i j hi hj => ?_⟩
  refine ⟨_, _, archiveImage_readOffset items i (by omega) hfit,
    archiveImage_readOffset items j hj hfit, ?_, ?_⟩
  · have := dataTotal_take_mono items i j (by omega)
    omega
  · intro hne
    have h1 := dataTotal_take_succ items i (by omega)
    have h2 := dataTotal_take_mono items (i + 1) j (by omega)
    have hpos : 0 < items[i].data.length := List.length_pos.mpr hne
    omega

theorem offsets_monotone_witness :
    ∃ img, packArchive 64 (fun _ => 255) scenarioItems = some img ∧
      ∀ i j (hi : i < j) (hj : j < scenarioItems.length), ∃ oi oj,
        entryDataOffset img i = some oi ∧ entryDataOffset img j = some oj ∧ oi ≤ oj ∧
        (scenarioItems[i].data ≠ [] → oi < oj) :=
  offsets_monotone 64 (fun _ => 255) scenarioItems (by decide) (by decide)


/-! ## Name decoding -/

theorem strnlenLog_fst (buf : List Byte) :
    ∀ (m s : Nat), (strnlenLog buf s m).1 = strnlen buf s m := by
  intro m
  induction m with
  | zero => intro s; rfl
  | succ m ih =>
    intro s
    unfold strnlenLog strnlen
    split
    · rfl
    · split
      · rfl
      · simp only [ih]

theorem strnlenLog_reads (buf : List Byte) :
    ∀ (m s r : Nat), r ∈ (strnlenLog buf s m).2 → s ≤ r ∧ r < s + m := by
  intro m
  induction m with
  | zero => intro s r h; simp [strnlenLog] at h
  | succ m ih =>
    intro s r h
    unfold strnlenLog at h
    split at h
    · simp only [List.mem_singleton] at h; omega
    · split at h
      · simp only [List.mem_singleton] at h; omega
      · simp only [List.mem_cons] at h
        rcases h with h | h
        · omega
        · have := ih (s + 1) r h
          omega

theorem strnlen_first_nul (buf : List Byte) :
    ∀ (m p : Nat), p + m ≤ buf.length →
      ∃ len, strnlen buf p m = some len ∧ len ≤ m ∧
        (∀ k, k < len → buf[p + k]? ≠ some 0) ∧ (len < m → buf[p + len]? = some 0) := by
  intro m
  induction m with
  | zero => intro p _; exact ⟨0, rfl, Nat.le_refl _, fun k hk => by omega, fun h => by omega⟩
  | succ m ih =>
    intro p hp
    have hlt : p < buf.length := by omega
    by_cases hz : buf[p] = 0
    · refine ⟨0, by simp [strnlen, List.getElem?_eq_getElem hlt, hz], by omega,
        fun k hk => by omega, fun _ => ?_⟩
      rw [Nat.add_zero, List.getElem?_eq_getElem hlt, hz]
    · obtain ⟨len, h1, h2, h3, h4⟩ := ih (p + 1) (by omega)
      refine ⟨len + 1, by simp [strnlen, List.getElem?_eq_getElem hlt, hz, h1], by omega,
        fun k hk => ?_, fun hl => ?_⟩
      · cases k with
        | zero =>
          rw [Nat.add_zero, List.getElem?_eq_getElem hlt]
          intro h
          exact hz (by simpa using h)
        | succ k =>
          have := h3 k (by omega)
          rwa [show p + (k + 1) = p + 1 + k by omega]
      · have := h4 (by omega)
        rwa [show p + (len + 1) = p + 1 + len by omega]

/-- C16: for every entry whose 128-byte name field lies in the view, the length `ExtractWad`
obtains from `strnlen(wi.name, sizeof(wi.name))` is at most 128, no byte of the field before it
is NUL, and the byte at it is NUL unless it is 128: it is the index of the first NUL byte, or 128
when the field has none. The decoded name is that prefix of the field, and every byte the scan
loads lies inside the field. -/
theorem name_decoding_length (buf : List Byte) (i : Nat)
    (hfield : 4 + 136 * i + 128 ≤ buf.length) :
    ∃ len, strnlen buf (4 + 136 * i) 128 = some len ∧ len ≤ 128 ∧
      (∀ k, k < len → ((buf.drop (4 + 136 * i)).take 128)[k]? ≠ some 0) ∧
      (len < 128 → ((buf.drop (4 + 136 * i)).take 128)[len]? = some 0) ∧
      (0 ∉ (buf.drop (4 + 136 * i)).take 128 → len = 128) ∧
      entryName buf i = some (((buf.drop (4 + 136 * i)).take 128).take len) ∧
      (strnlenLog buf (4 + 136 * i) 128).1 = some len ∧
      ∀ r ∈ (strnlenLog buf (4 + 136 * i) 128).2, 4 + 136 * i ≤ r ∧ r < 4 + 136 * i + 128 := by
  obtain ⟨len, h1, h2, h3, h4⟩ := strnlen_first_nul buf 128 (4 + 136 * i) hfield
  have hget : ∀ k, k < 128 →
      ((buf.drop (4 + 136 * i)).take 128)[k]? = buf[4 + 136 * i + k]? := by
    intro k hk
    rw [List.getElem?_take_of_lt hk, List.getElem?_drop]
  refine ⟨len, h1, h2, fun k hk => ?_, fun hl => ?_, fun hno => ?_, ?_, ?_, ?_⟩
  · rw [hget k (by omega)]
    exact h3 k hk
  · rw [hget len hl]
    exact h4 hl
  · by_contra hne
    have hl : len < 128 := by omega
    have hz := h4 hl
    rw [← hget len hl] at hz
    exact hno (List.getElem?_mem hz)
  · rw [entryName, h1, Option.map_some', List.take_take, Nat.min_eq_left h2]
  · rw [strnlenLog_fst, h1]
  · exact strnlenLog_reads buf 128 (4 + 136 * i)

theorem name_decoding_length_witness :
    entryName fullNameView 0 = some (List.replicate 128 65) ∧
    ∃ len, strnlen fullNameView (4 + 136 * 0) 128 = some len ∧ len ≤ 128 ∧
      (∀ k, k < len → ((fullNameView.drop (4 + 136 * 0)).take 128)[k]? ≠ some 0) ∧
      (len < 128 → ((fullNameView.drop (4 + 136 * 0)).take 128)[len]? = some 0) ∧
      (0 ∉ (fullNameView.drop (4 + 136 * 0)).take 128 → len = 128) ∧
      entryName fullNameView 0
        = some (((fullNameView.drop (4 + 136 * 0)).take 128).take len) ∧
      (strnlenLog fullNameView (4 + 136 * 0) 128).1 = some len ∧
      ∀ r ∈ (strnlenLog fullNameView (4 + 136 * 0) 128).2,
        4 + 136 * 0 ≤ r ∧ r < 4 + 136 * 0 + 128 :=
  ⟨by set_option maxRecDepth 100000 in decide,
    name_decoding_length fullNameView 0 (by set_option maxRecDepth 100000 in decide)⟩


/-! ## Where the payload copies go -/

theorem writeDataLog_fst (items : List SourceItem) :
    ∀ (img : List Byte) (i : Nat), (writeDataLog img items i).1 = writeData img items i := by
  induction items with
  | nil => intro img i; rfl
  | cons si rest ih =>
    intro img i
    rw [writeData_cons]
    unfold writeDataLog
    cases hr : readU32 img (4 + 136 * i + 128) with
    | none => rfl
    | some off =>
      simp only [Option.some_bind]
      by_cases he : si.data.isEmpty = true
      · simp only [he, if_true, ih]
      · simp only [he, Bool.false_eq_true, if_false]
        cases hw : writeBytes img off si.data with
        | none => rfl
        | some img1 => simp only [Option.some_bind, ih]

theorem packImageLog_fst (sz : Nat) (init : List Byte) (items : List SourceItem) :
    (packImageLog sz init items).1 = packImage sz init items := by
  unfold packImageLog packImage
  cases h0 : writeBytes init 0 (le32 (items.length % 4294967296)) with
  | none => rfl
  | some img0 =>
    simp only [Option.some_bind]
    cases h1 : writeTable img0 items 0
        ((4 + (items.length * 136 % 2 ^ sz) % 4294967296) % 4294967296) with
    | none => rfl
    | some img1 => simp only [Option.some_bind, writeDataLog_fst]

theorem writeDataLog_in_region (T P2 : List Byte) (items : List SourceItem) :
    ∀ (i : Nat) (D P1 : List Byte), P1.length = dataTotal items →
      (∀ k, k < items.length → readU32 T (4 + 136 * (i + k) + 128)
        = some (T.length + D.length + dataTotal (items.take k))) →
      ∀ c ∈ (writeDataLog (T ++ D ++ P1 ++ P2) items i).2,
        T.length + D.length ≤ c.1 ∧ c.1 + c.2 ≤ T.length + D.length + dataTotal items := by
  induction items with
  | nil => intro i D P1 _ _ c hc; simp [writeDataLog] at hc
  | cons si rest ih =>
    intro i D P1 hP1 hread c hc
    have h0 := hread 0 (by simp)
    simp only [Nat.add_zero, List.take_zero, dataTotal] at h0
    have hr : readU32 (T ++ D ++ P1 ++ P2) (4 + 136 * i + 128) = some (T.length + D.length) := by
      rw [List.append_assoc, List.append_assoc]
      exact readU32_append_left _ _ _ _ h0
    simp only [dataTotal] at hP1
    have hread2 : ∀ k, k < rest.length → readU32 T (4 + 136 * (i + 1 + k) + 128)
        = some (T.length + (D ++ si.data).length + dataTotal (rest.take k)) := by
      intro k hk
      have := hread (k + 1) (by simpa using hk)
      simp only [List.take_succ_cons, dataTotal, List.length_append] at this ⊢
      rw [show i + 1 + k = i + (k + 1) by omega, this]
      congr 1
      omega
    unfold writeDataLog at hc
    rw [hr] at hc
    simp only at hc
    by_cases he : si.data.isEmpty = true
    · have hnil : si.data = [] := List.isEmpty_iff.mp he
      rw [if_pos he] at hc
      have hP1' : P1.length = dataTotal rest := by rw [hP1, hnil]; simp
      have := ih (i + 1) (D ++ si.data) P1 hP1' hread2 c
        (by simpa only [hnil, List.append_nil] using hc)
      simp only [hnil, List.append_nil, List.length_nil, dataTotal, Nat.zero_add] at this ⊢
      exact this
    · rw [if_neg he] at hc
      have hsplit : P1 = P1.take si.data.length ++ P1.drop si.data.length :=
        (List.take_append_drop _ P1).symm
      have ht : (P1.take si.data.length).length = si.data.length := by
        rw [List.length_take, hP1]; omega
      have hd : (P1.drop si.data.length).length = dataTotal rest := by
        rw [List.length_drop, hP1]; omega
      have himg : T ++ D ++ P1 ++ P2
          = (T ++ D) ++ P1.take si.data.length ++ (P1.drop si.data.length ++ P2) := by
        conv_lhs => rw [hsplit]
        simp only [List.append_assoc]
      rw [himg, writeBytes_mid (T ++ D) _ _ si.data _ (by rw [List.length_append]) ht.symm] at hc
      simp only [List.mem_cons] at hc
      rcases hc with hc | hc
      · subst hc
        simp only [dataTotal]
        omega
      · have := ih (i + 1) (D ++ si.data) (P1.drop si.data.length) hd hread2 c
          (by simpa only [List.append_assoc] using hc)
        simp only [List.length_append, dataTotal] at this ⊢
        omega


theorem tableStage_layout (sz : Nat) (init : List Byte) (items : List SourceItem)
    (hsz : 32 ≤ sz) (hinit : init.length = 4 + 136 * items.length + dataTotal items)
    (hfit : 4 + 136 * items.length + dataTotal items ≤ 4294967295) :
    ((writeBytes init 0 (le32 (items.length % 4294967296))).bind fun img0 =>
      writeTable img0 items 0
        ((4 + (items.length * 136 % 2 ^ sz) % 4294967296) % 4294967296))
      = some (le32 items.length ++ tableImage items (4 + 136 * items.length)
          ++ (init.drop 4).drop (136 * items.length)) := by
  have h32 := two_pow_32_le sz hsz
  have hn : items.length % 4294967296 = items.length := Nat.mod_eq_of_lt (by omega)
  have hoff : (4 + (items.length * 136 % 2 ^ sz) % 4294967296) % 4294967296
      = 4 + 136 * items.length := by
    rw [Nat.mod_eq_of_lt (show items.length * 136 < 2 ^ sz by omega)]
    omega
  have hsplit : init = [] ++ init.take 4 ++
      ((init.drop 4).take (136 * items.length) ++ (init.drop 4).drop (136 * items.length)) := by
    rw [List.take_append_drop, List.nil_append, List.take_append_drop]
  have hhd : (init.take 4).length = 4 := by rw [List.length_take]; omega
  have hmid : ((init.drop 4).take (136 * items.length)).length = 136 * items.length := by
    rw [List.length_take, List.length_drop]; omega
  rw [hn, hoff]
  conv_lhs => rw [hsplit]
  rw [writeBytes_mid [] (init.take 4) _ (le32 items.length) 0 rfl (by rw [le32_length, hhd])]
  simp only [Option.some_bind, List.nil_append]
  rw [← List.append_assoc,
    writeTable_layout items (le32 items.length) _ _ 0 _ (by rw [le32_length]) hmid]

theorem packCopies_in_region (sz : Nat) (fill : Nat → Byte) (items : List SourceItem)
    (hsz : 32 ≤ sz) (hfit : 4 + 136 * items.length + dataTotal items ≤ 4294967295) :
    ∀ c ∈ packCopies sz fill items,
      4 + 136 * items.length ≤ c.1 ∧ c.1 + c.2 ≤ 4 + 136 * items.length + dataTotal items := by
  have h32 := two_pow_32_le sz hsz
  have hT := totalSize_exact sz items (by omega)
  have hinit : (MappedOutput.create fill (totalSize sz items)).length
      = 4 + 136 * items.length + dataTotal items := by rw [create_length, hT]
  intro c hc
  unfold packCopies packImageLog at hc
  rw [tableStage_layout sz _ items hsz hinit hfit] at hc
  simp only at hc
  have hpay : (((MappedOutput.create fill (totalSize sz items)).drop 4).drop
      (136 * items.length)).length = dataTotal items := by
    rw [List.length_drop, List.length_drop]; omega
  have hread : ∀ k, k < items.length →
      readU32 (le32 items.length ++ tableImage items (4 + 136 * items.length))
        (4 + 136 * (0 + k) + 128)
      = some ((le32 items.length ++ tableImage items (4 + 136 * items.length)).length
          + ([] : List Byte).length + dataTotal (items.take k)) := by
    intro k hk
    obtain ⟨tail, ht⟩ := tableImage_drop items (le32 items.length) [] (4 + 136 * items.length) k hk
      (by omega)
    have hle := dataTotal_take_le items k
    have := itemImage_readOffset _ tail (4 + 136 * k) items[k]
      (4 + 136 * items.length + dataTotal (items.take k)) (by omega)
      (by simpa only [le32_length, List.append_nil] using ht)
    simp only [List.length_append, le32_length, tableImage_length, List.length_nil, Nat.zero_add,
      Nat.add_zero]
    exact this
  have := writeDataLog_in_region (le32 items.length ++ tableImage items (4 + 136 * items.length))
    [] items 0 [] _ hpay hread c (by simpa only [List.append_nil] using hc)
  simpa only [List.length_append, le32_length, tableImage_length, List.length_nil,
    Nat.add_zero] using this


theorem tableStage_beyond_limit (init : List Byte) (a b : SourceItem)
    (ha : a.data.length = 4294967024) (hinit : init.length = 4294967301) :
    ((writeBytes init 0 (le32 ([a, b].length % 4294967296))).bind fun img0 =>
      writeTable img0 [a, b] 0
        ((4 + ([a, b].length * 136 % 2 ^ 64) % 4294967296) % 4294967296))
      = some (le32 2 ++ (itemImage a 276 ++ itemImage b 4) ++ (init.drop 4).drop 272) := by
  have hsplit : init = [] ++ init.take 4 ++
      ((init.drop 4).take 272 ++ (init.drop 4).drop 272) := by
    rw [List.take_append_drop, List.nil_append, List.take_append_drop]
  have hhd : (init.take 4).length = 4 := by rw [List.length_take]; omega
  have hmid : ((init.drop 4).take 272).length = 136 * [a, b].length := by
    rw [List.length_take, List.length_drop]; simp; omega
  have hn : [a, b].length % 4294967296 = 2 := rfl
  have hoff : (4 + ([a, b].length * 136 % 2 ^ 64) % 4294967296) % 4294967296 = 276 := by
    norm_num
  rw [hn, hoff]
  conv_lhs => rw [hsplit]
  rw [writeBytes_mid [] (init.take 4) _ (le32 2) 0 rfl (by rw [le32_length, hhd])]
  simp only [Option.some_bind, List.nil_append]
  rw [← List.append_assoc, writeTable_layout [a, b] (le32 2) _ _ 0 276 (by rw [le32_length]) hmid]
  have hwrap : (276 + a.data.length % 4294967296) % 4294967296 = 4 := by rw [ha]
  have htab : tableImage [a, b] 276 = itemImage a 276 ++ itemImage b 4 := by
    simp only [tableImage, hwrap, List.append_nil]
  rw [htab]

theorem writeDataLog_beyond_limit (P : List Byte) (a b : SourceItem) (x : Byte)
    (ha : a.data.length = 4294967024) (hb : b.data = [x]) (hP : P.length = 4294967025) :
    (writeDataLog (le32 2 ++ (itemImage a 276 ++ itemImage b 4) ++ P) [a, b] 0).2
      = [(276, 4294967024), (4, 1)] := by
  have hr0 : readU32 (le32 2 ++ (itemImage a 276 ++ itemImage b 4) ++ P) (4 + 136 * 0 + 128)
      = some 276 := by
    apply itemImage_readOffset _ (itemImage b 4 ++ P) 4 a 276 (by decide)
    rw [List.append_assoc, ← le32_length 2, List.drop_left, List.append_assoc]
  have hane : a.data.isEmpty = false := by
    cases hd : a.data with
    | nil => rw [hd] at ha; simp at ha
    | cons _ _ => rfl
  have hTlen : (le32 2 ++ (itemImage a 276 ++ itemImage b 4)).length = 276 := by
    simp only [List.length_append, le32_length, itemImage_length]
  have hPsplit : P = P.take a.data.length ++ P.drop a.data.length :=
    (List.take_append_drop _ P).symm
  have hPt : (P.take a.data.length).length = a.data.length := by
    rw [List.length_take, hP, ha]; omega
  have e1 : le32 2 ++ (itemImage a 276 ++ itemImage b 4) ++ P
      = (le32 2 ++ (itemImage a 276 ++ itemImage b 4)) ++ P.take a.data.length
        ++ P.drop a.data.length := by
    conv_lhs => rw [hPsplit]
    simp only [List.append_assoc]
  have hw0 : writeBytes (le32 2 ++ (itemImage a 276 ++ itemImage b 4) ++ P) 276 a.data
      = some (le32 2 ++ (itemImage a 276 ++ itemImage b 4) ++ a.data
          ++ P.drop a.data.length) := by
    rw [e1, writeBytes_mid _ (P.take a.data.length) _ a.data 276 hTlen.symm hPt.symm]
  have hr1 : readU32 (le32 2 ++ (itemImage a 276 ++ itemImage b 4) ++ a.data
      ++ P.drop a.data.length) (4 + 136 * (0 + 1) + 128) = some 4 := by
    apply itemImage_readOffset _ (a.data ++ P.drop a.data.length) 140 b 4 (by decide)
    have hl : (le32 2 ++ itemImage a 276).length = 140 := by
      rw [List.length_append, le32_length, itemImage_length]
    have e : le32 2 ++ (itemImage a 276 ++ itemImage b 4) ++ a.data ++ P.drop a.data.length
        = (le32 2 ++ itemImage a 276) ++ (itemImage b 4 ++ (a.data ++ P.drop a.data.length)) := by
      simp only [List.append_assoc]
    rw [e, ← hl, List.drop_left]
  have hIsplit : itemImage a 276 = (itemImage a 276).take 1 ++ (itemImage a 276).drop 1 :=
    (List.take_append_drop 1 _).symm
  have hIt : ((itemImage a 276).take 1).length = 1 := by
    rw [List.length_take, itemImage_length]; rfl
  have e2 : le32 2 ++ (itemImage a 276 ++ itemImage b 4) ++ a.data ++ P.drop a.data.length
      = le32 2 ++ (itemImage a 276).take 1
        ++ ((itemImage a 276).drop 1 ++ itemImage b 4 ++ a.data ++ P.drop a.data.length) := by
    conv_lhs => rw [hIsplit]
    simp only [List.append_assoc]
  have hw1 : writeBytes (le32 2 ++ (itemImage a 276 ++ itemImage b 4) ++ a.data
      ++ P.drop a.data.length) 4 [x]
      = some (le32 2 ++ [x]
          ++ ((itemImage a 276).drop 1 ++ itemImage b 4 ++ a.data ++ P.drop a.data.length)) := by
    rw [e2, writeBytes_mid (le32 2) ((itemImage a 276).take 1) _ [x] 4 (le32_length 2).symm
      (by rw [hIt]; rfl)]
  unfold writeDataLog
  rw [hr0]
  simp only [hane, Bool.false_eq_true, if_false, hw0]
  unfold writeDataLog
  rw [hr1]
  simp only [hb, List.isEmpty_cons, Bool.false_eq_true, if_false, hw1, writeDataLog,
    List.length_singleton]
  rw [ha]

theorem packCopies_beyond_limit (fill : Nat → Byte) (a b : SourceItem) (x : Byte)
    (ha : a.data.length = 4294967024) (hb : b.data = [x]) :
    packCopies 64 fill [a, b] = [(276, 4294967024), (4, 1)] := by
  have hT := (payload_copy_lands_on_table fill a b x ha hb).1
  have hlen : (((MappedOutput.create fill (totalSize 64 [a, b])).drop 4).drop 272).length
      = 4294967025 := by
    rw [List.length_drop, List.length_drop, create_length, hT]
  unfold packCopies packImageLog
  rw [tableStage_beyond_limit _ a b ha (by rw [create_length]; exact hT)]
  simp only
  exact writeDataLog_beyond_limit _ a b x ha hb hlen

/-- C17, as stated, fails: for the two items of `beyondLimitItems` (data lengths `2^32 - 272`
and `1`, archive size `2^32 + 5`) the running `uint32_t offset` wraps, and the second payload
copy of `PackFolder` targets `[4, 5)`, which lies in the table, not in `[276, totalSize)`; the
first byte of entry 0's name field is overwritten. -/
theorem payload_copy_leaves_region :
    totalSize 64 (beyondLimitItems 0) = 4294967301 ∧
    packCopies 64 (fun _ => 255) (beyondLimitItems 0) = [(276, 4294967024), (4, 1)] ∧
    ¬ (∀ c ∈ packCopies 64 (fun _ => 255) (beyondLimitItems 0),
        4 + 136 * (beyondLimitItems 0).length ≤ c.1) ∧
    ∃ img, packArchive 64 (fun _ => 255) (beyondLimitItems 0) = some img ∧
      img[4]? = some 66 := by
  have ha : (bigData 0).length = 4294967024 := List.length_replicate _ _
  obtain ⟨hT, img, hpack, _, hbyte⟩ := payload_copy_lands_on_table (fun _ => 255)
    ⟨"h", "h", [104], bigData 0⟩ ⟨"t", "t", [116], [66]⟩ 66 ha rfl
  have hcopies : packCopies 64 (fun _ => 255) (beyondLimitItems 0)
      = [(276, 4294967024), (4, 1)] :=
    packCopies_beyond_limit (fun _ => 255) ⟨"h", "h", [104], bigData 0⟩ ⟨"t", "t", [116], [66]⟩
      66 ha rfl
  refine ⟨hT, hcopies, fun h => ?_, img, hpack, hbyte⟩
  have := h (4, 1) (by rw [hcopies]; simp)
  simp [beyondLimitItems] at this

/-- C17, amended: for every ordered list of `n` items whose archive size is at most `2^32 - 1`,
packing succeeds and each payload copy of `PackFolder` targets a byte range
`[dataOffset, dataOffset + data length)` inside `[4 + 136*n, totalSize)` of the pre-sized image,
so the header and the table entries are as the table loop left them. -/
theorem payload_copies_in_region (sz : Nat) (fill : Nat → Byte) (items : List SourceItem)
    (hsz : 32 ≤ sz) (hfit : 4 + 136 * items.length + dataTotal items ≤ 4294967295) :
    (∀ c ∈ packCopies sz fill items,
      4 + 136 * items.length ≤ c.1 ∧ c.1 + c.2 ≤ totalSize sz items) ∧
    ∃ img, packArchive sz fill items = some img ∧
      (packImageLog sz (MappedOutput.create fill (totalSize sz items)) items).1 = some img ∧
      img.take (4 + 136 * items.length)
        = le32 items.length ++ tableImage items (4 + 136 * items.length) := by
  have h32 := two_pow_32_le sz hsz
  have hT := totalSize_exact sz items (by omega)
  refine ⟨fun c hc => ?_, archiveImage items, packArchive_layout sz fill items hsz hfit, ?_, ?_⟩
  · rw [hT]
    exact packCopies_in_region sz fill items hsz hfit c hc
  · rw [packImageLog_fst]
    exact packArchive_layout sz fill items hsz hfit
  · have hl : (le32 items.length ++ tableImage items (4 + 136 * items.length)).length
        = 4 + 136 * items.length := by
      rw [List.length_append, le32_length, tableImage_length]
    have ht := List.take_left (le32 items.length ++ tableImage items (4 + 136 * items.length))
      (payloadImage items)
    rw [hl] at ht
    rw [archiveImage, ht]

theorem payload_copies_in_region_witness :
    packCopies 64 (fun _ => 255) scenarioItems = [(276, 3)] ∧
    ((∀ c ∈ packCopies 64 (fun _ => 255) scenarioItems,
      4 + 136 * scenarioItems.length ≤ c.1 ∧ c.1 + c.2 ≤ totalSize 64 scenarioItems) ∧
    ∃ img, packArchive 64 (fun _ => 255) scenarioItems = some img ∧
      (packImageLog 64 (MappedOutput.create (fun _ => 255) (totalSize 64 scenarioItems))
        scenarioItems).1 = some img ∧
      img.take (4 + 136 * scenarioItems.length)
        = le32 scenarioItems.length ++ tableImage scenarioItems (4 + 136 * scenarioItems.length)) :=
  ⟨by set_option maxRecDepth 100000 in decide,
    payload_copies_in_region 64 (fun _ => 255) scenarioItems (by decide) (by decide)⟩


/-! ## The directory set of the extraction loop -/

/-- C14 fails on the code: with two entries `d\1` and `d\2` and a `create_directories` that
fails for their common parent (a fixed function of the path), the loop with `createdDirs` skips
entry 0 only and then writes entry 1 and logs it as extracted, since the failed directory is
already in the set; the loop without the set skips both entries with a failure line each. -/
theorem directory_set_changes_outcome :
    (validate 64 siblingView).outcome = Outcome.accepted 2 ∧
    extractLoop 64 (blockedDirWorld siblingView (sep ++ "x" ++ sep ++ "d")) siblingView
        (sep ++ "x") 2 2 0 []
      = [Event.createDirectories (sep ++ "x" ++ sep ++ "d"),
         Event.logBuffered ("Failed to create directory: " ++ (sep ++ "x" ++ sep ++ "d")),
         Event.writeFile (sep ++ "x" ++ sep ++ "d" ++ sep ++ "2") (some [2]),
         Event.logBuffered ("Extracting: d" ++ sep ++ "2"),
         Event.setProgress 100] ∧
    extractLoopUncached 64 (blockedDirWorld siblingView (sep ++ "x" ++ sep ++ "d")) siblingView
        (sep ++ "x") 2 2 0
      = [Event.createDirectories (sep ++ "x" ++ sep ++ "d"),
         Event.logBuffered ("Failed to create directory: " ++ (sep ++ "x" ++ sep ++ "d")),
         Event.createDirectories (sep ++ "x" ++ sep ++ "d"),
         Event.logBuffered ("Failed to create directory: " ++ (sep ++ "x" ++ sep ++ "d"))] ∧
    withoutDirectoryCalls
        (extractLoop 64 (blockedDirWorld siblingView (sep ++ "x" ++ sep ++ "d")) siblingView
          (sep ++ "x") 2 2 0 [])
      ≠ withoutDirectoryCalls
        (extractLoopUncached 64 (blockedDirWorld siblingView (sep ++ "x" ++ sep ++ "d"))
          siblingView (sep ++ "x") 2 2 0) := by
  set_option maxRecDepth 100000 in decide

theorem extractLoop_agrees_without_failures (sz : Nat) (w : World) (buf : List Byte)
    (outDir : String) (fc : Nat) (hok : ∀ i p, w.createDirectoriesFails i p = false) :
    ∀ (remaining i : Nat) (createdDirs : List String),
      withoutDirectoryCalls (extractLoop sz w buf outDir fc remaining i createdDirs)
        = withoutDirectoryCalls (extractLoopUncached sz w buf outDir fc remaining i) := by
  intro remaining
  induction remaining with
  | zero => intro i created; rfl
  | succ r ih =>
    intro i created
    unfold extractLoop extractLoopUncached
    cases hname : entryName buf i with
    | none => rfl
    | some nameAnsi =>
      simp only [hok, Bool.false_eq_true, if_false]
      by_cases hin : w.parentPath (w.join outDir (w.toWideFromAnsi nameAnsi)) ∈ created
      · rw [if_pos hin]
        simp only [withoutDirectoryCalls, List.filter_append, List.filter_cons,
          List.cons_append] at ih ⊢
        simp only [ih (i + 1) created, if_true, Bool.false_eq_true, if_false]
      · rw [if_neg hin]
        simp only [withoutDirectoryCalls, List.filter_append, List.filter_cons,
          List.cons_append] at ih ⊢
        simp only [ih (i + 1) _, if_true, Bool.false_eq_true, if_false]


/-! ## Progress reports -/

theorem dropLoop_segments (sz : Nat) (ws : Nat → PackWorld) (paths : List String) :
    ∀ (i : Nat), ∃ segs : List (List Event), segs.length = paths.length ∧
      dropLoop sz ws paths i = segs.flatten ∧
      ∀ k (hk : k < paths.length), ∃ seg, segs[k]? = some seg ∧
        DropSegment sz (ws (i + k)) paths[k] seg := by
  induction paths with
  | nil => intro i; exact ⟨[], rfl, rfl, fun k hk => by simp at hk⟩
  | cons p rest ih =>
    intro i
    obtain ⟨segs, hl, heq, hseg⟩ := ih (i + 1)
    refine ⟨([Event.log ("Loading: " ++ p), Event.setProgress 0]
      ++ (if (ws i).isDirectoryAttr p then PackFolder sz (ws i) p
          else if wcsicmpEq ((ws i).extension p) ".wad" then ExtractWad sz (ws i).toWorld p
          else [Event.log ("Not a WAD file: " ++ p)])) :: segs,
      by rw [List.length_cons, List.length_cons, hl], ?_, ?_⟩
    · rw [dropLoop, heq, List.flatten_cons]
    · intro k hk
      cases k with
      | zero =>
        refine ⟨_, List.getElem?_cons_zero, ?_, ?_, ?_⟩
        · intro hd
          simp only [Nat.add_zero, List.getElem_cons_zero] at hd ⊢
          rw [if_pos hd]
        · intro hd hw
          simp only [Nat.add_zero, List.getElem_cons_zero] at hd hw ⊢
          rw [hd, hw]
          rfl
        · intro hd hw
          simp only [Nat.add_zero, List.getElem_cons_zero] at hd hw ⊢
          rw [hd, hw]
          rfl
      | succ k =>
        obtain ⟨seg, h1, h2⟩ := hseg k (by simpa using hk)
        refine ⟨seg, by simpa using h1, ?_⟩
        rw [show i + (k + 1) = i + 1 + k by omega]
        simpa using h2

/-- C13: `HandleDrop` handles the dropped paths in drop order, one group of effects per path:
a path that is an existing directory goes to `PackFolder`, whatever its extension; a path that
is not a directory and whose extension equals `.wad` under the case-insensitive comparison goes
to `ExtractWad`; any other path is logged as not a WAD file and starts no operation; the
following paths are handled all the same. -/
theorem drop_routing (sz : Nat) (ws : Nat → PackWorld) (paths : List String) :
    (paths = [] → HandleDrop sz ws paths = [Event.dragFinish]) ∧
    (paths ≠ [] → ∃ segs : List (List Event), segs.length = paths.length ∧
      HandleDrop sz ws paths = Event.clearLog :: segs.flatten ++ [Event.dragFinish] ∧
      ∀ i (hi : i < paths.length), ∃ seg, segs[i]? = some seg ∧
        DropSegment sz (ws i) paths[i] seg) := by
  constructor
  · intro h
    subst h
    rfl
  · intro hne
    obtain ⟨segs, hl, heq, hseg⟩ := dropLoop_segments sz ws paths 0
    refine ⟨segs, hl, ?_, fun i hi => ?_⟩
    · have hlen : paths.length ≠ 0 := fun h => hne (List.length_eq_zero.mp h)
      rw [HandleDrop, if_neg hlen, heq]
    · obtain ⟨seg, h1, h2⟩ := hseg i hi
      rw [Nat.zero_add] at h2
      exact ⟨seg, h1, h2⟩

theorem drop_routing_witness :
    (wcsicmpEq ".WAD" ".wad" = true ∧ wcsicmpEq ".Wad" ".wad" = true ∧
      wcsicmpEq ".wa" ".wad" = false ∧ wcsicmpEq "" ".wad" = false) ∧
    (HandleDrop 64 (fun _ => samplePackWorld [1, 2] true false false) ["dir", "x.WaD", "y.txt"]
      = [Event.clearLog,
         Event.log "Loading: dir", Event.setProgress 0,
         Event.log "Reading folder contents...", Event.setProgress 0,
         Event.log "2 files found", Event.setProgress 50, Event.setProgress 100,
         Event.setProgress 100, Event.log "Collecting files completed",
         Event.confirmDialog "dir.wad", Event.log "Cancelled creating WAD",
         Event.log "Loading: x.WaD", Event.setProgress 0,
         Event.log "Reading WAD header", Event.setProgress 0,
         Event.errorBox "Invalid WAD file.", Event.log "ERROR: Invalid WAD file.",
         Event.log "Loading: y.txt", Event.setProgress 0, Event.log "Not a WAD file: y.txt",
         Event.dragFinish]) ∧
    ∃ segs : List (List Event), segs.length = ["dir", "x.WaD", "y.txt"].length ∧
      HandleDrop 64 (fun _ => samplePackWorld [1, 2] true false false) ["dir", "x.WaD", "y.txt"]
        = Event.clearLog :: segs.flatten ++ [Event.dragFinish] ∧
      ∀ i (hi : i < ["dir", "x.WaD", "y.txt"].length), ∃ seg, segs[i]? = some seg ∧
        DropSegment 64 (samplePackWorld [1, 2] true false false) ["dir", "x.WaD", "y.txt"][i]
          seg :=
  ⟨by decide, by set_option maxRecDepth 100000 in decide,
    (drop_routing 64 (fun _ => samplePackWorld [1, 2] true false false)
      ["dir", "x.WaD", "y.txt"]).2 (by decide)⟩


/-! ## The overwrite gate -/

theorem confirm_shape (w : World) (target : String) (body cancel : List Event) :
    (if (ConfirmOverwrite w target).2 then (ConfirmOverwrite w target).1 ++ body
      else (ConfirmOverwrite w target).1 ++ cancel)
    = if w.disableOverwriteWarning then body
      else if w.answerYes target then Event.confirmDialog target :: body
      else Event.confirmDialog target :: cancel := by
  unfold ConfirmOverwrite
  cases w.disableOverwriteWarning <;> cases w.answerYes target <;> rfl

theorem mem_pre_of_split {α : Type} (a : List α) :
    ∀ (d : α) (b pre post : List α) (e : α), a ++ d :: b = pre ++ e :: post →
      (∀ x ∈ a, x ≠ e) → d ≠ e → d ∈ pre := by
  induction a with
  | nil =>
    intro d b pre post e h _ hde
    cases pre with
    | nil =>
      simp only [List.nil_append, List.cons.injEq] at h
      exact absurd h.1 hde
    | cons x pre' =>
      simp only [List.nil_append, List.cons_append, List.cons.injEq] at h
      rw [h.1]
      exact List.mem_cons_self _ _
  | cons y a' ih =>
    intro d b pre post e h hne hde
    cases pre with
    | nil =>
      simp only [List.cons_append, List.nil_append, List.cons.injEq] at h
      exact absurd h.1 (hne y (List.mem_cons_self _ _))
    | cons x pre' =>
      simp only [List.cons_append, List.cons.injEq] at h
      exact List.mem_cons_of_mem _
        (ih d b pre' post e h.2 (fun z hz => hne z (List.mem_cons_of_mem _ hz)) hde)

theorem countP_quiet (l : List Event) (h : ∀ e ∈ l, e.isConfirmDialog = false) :
    l.countP Event.isConfirmDialog = 0 :=
  List.countP_eq_zero.mpr (fun e he => by rw [h e he]; decide)

theorem gate_of_quiet (t : List Event) (flag yes : Bool)
    (h : ∀ e ∈ t, e.isConfirmDialog = false ∧ e.writesOrCreates = false) :
    OverwriteGate t flag yes := by
  refine ⟨by rw [countP_quiet t (fun e he => (h e he).1)]; omega,
    fun _ e he => (h e he).1, fun pre e post ht hw => ?_, fun _ _ e he => (h e he).2⟩
  have : e ∈ t := by rw [ht]; simp
  rw [(h e this).2] at hw
  cases hw

theorem gate_shape (head body cancel : List Event) (target : String) (flag yes : Bool)
    (hhead : ∀ e ∈ head, e.isConfirmDialog = false ∧ e.writesOrCreates = false)
    (hbody : ∀ e ∈ body, e.isConfirmDialog = false)
    (hcancel : ∀ e ∈ cancel, e.isConfirmDialog = false ∧ e.writesOrCreates = false) :
    OverwriteGate
      (head ++ (if flag then body
        else if yes then Event.confirmDialog target :: body
        else Event.confirmDialog target :: cancel)) flag yes := by
  have hc0 := countP_quiet head (fun e he => (hhead e he).1)
  cases flag with
  | true =>
    simp only [if_true]
    refine ⟨?_, fun _ e he => ?_, fun _ _ _ _ _ => Or.inl rfl, (fun h => by cases h)⟩
    · rw [List.countP_append, hc0, countP_quiet body hbody]; omega
    · rcases List.mem_append.mp he with h | h
      · exact (hhead e h).1
      · exact hbody e h
  | false =>
    cases yes with
    | true =>
      simp only [Bool.false_eq_true, if_false, if_true]
      refine ⟨?_, (fun h => by cases h), fun pre e post ht hw => Or.inr ⟨rfl, ?_⟩,
        (fun _ h => by cases h)⟩
      · rw [List.countP_append, List.countP_cons, hc0, countP_quiet body hbody]
        simp [Event.isConfirmDialog]
      · refine ⟨Event.confirmDialog target, ?_, rfl⟩
        refine mem_pre_of_split head _ body pre post e ht (fun x hx hxe => ?_) (fun hde => ?_)
        · rw [← hxe, (hhead x hx).2] at hw
          cases hw
        · rw [← hde] at hw
          cases hw
    | false =>
      simp only [Bool.false_eq_true, if_false]
      have hall : ∀ e ∈ head ++ Event.confirmDialog target :: cancel,
          e.writesOrCreates = false := by
        intro e he
        rcases List.mem_append.mp he with h | h
        · exact (hhead e h).2
        · rcases List.mem_cons.mp h with h | h
          · rw [h]; rfl
          · exact (hcancel e h).2
      refine ⟨?_, (fun h => by cases h), fun pre e post ht hw => ?_, fun _ _ => hall⟩
      · rw [List.countP_append, List.countP_cons, hc0,
          countP_quiet cancel (fun e he => (hcancel e he).1)]
        simp [Event.isConfirmDialog]
      · have : e ∈ head ++ Event.confirmDialog target :: cancel := by rw [ht]; simp
        rw [hall e this] at hw
        cases hw

theorem extractLoop_quiet (sz : Nat) (w : World) (buf : List Byte) (outDir : String)
    (fc : Nat) :
    ∀ (remaining i : Nat) (createdDirs : List String),
      ∀ e ∈ extractLoop sz w buf outDir fc remaining i createdDirs,
        e.isConfirmDialog = false := by
  intro remaining
  induction remaining with
  | zero => intro i created e he; simp [extractLoop] at he
  | succ r ih =>
    intro i created e he
    unfold extractLoop at he
    cases hname : entryName buf i with
    | none =>
      simp only [hname, List.mem_singleton] at he
      rw [he]; rfl
    | some nameAnsi =>
      simp only [hname] at he
      split at he
      · simp only [List.mem_append, List.mem_cons, List.not_mem_nil, or_false, false_or,
          List.cons_append, List.nil_append] at he
        rcases he with h | h | h | h
        · rw [h]; rfl
        · rw [h]; rfl
        · rw [h]; rfl
        · exact ih _ _ e h
      · split at he
        · simp only [List.mem_append, List.mem_cons, List.not_mem_nil, or_false, false_or,
            List.cons_append, List.nil_append] at he
          rcases he with h | h | h
          · rw [h]; rfl
          · rw [h]; rfl
          · exact ih _ _ e h
        · simp only [List.mem_append, List.mem_cons, List.not_mem_nil, or_false, false_or,
            List.cons_append, List.nil_append] at he
          rcases he with h | h | h | h | h
          · rw [h]; rfl
          · rw [h]; rfl
          · rw [h]; rfl
          · rw [h]; rfl
          · exact ih _ _ e h

theorem extractEntries_quiet (sz : Nat) (w : World) (buf : List Byte) (outDir : String)
    (fc : Nat) : ∀ e ∈ extractEntries sz w buf outDir fc, e.isConfirmDialog = false := by
  intro e he
  unfold extractEntries at he
  rcases List.mem_append.mp he with h | h
  · rcases List.mem_append.mp h with h | h
    · simp only [List.mem_singleton] at h
      rw [h]; rfl
    · exact extractLoop_quiet sz w buf outDir fc fc 0 [] e h
  · simp only [List.mem_cons, List.not_mem_nil, or_false] at h
    rcases h with h | h | h | h | h | h <;> (rw [h]; rfl)

theorem collectLoop_quiet (sz : Nat) (w : PackWorld) (n : Nat) (entries : List DirEntry) :
    ∀ (scanned : Nat), ∀ e ∈ (collectLoop sz w n entries scanned).1,
      e.isConfirmDialog = false ∧ e.writesOrCreates = false := by
  induction entries with
  | nil => intro scanned e he; simp [collectLoop] at he
  | cons entry rest ih =>
    intro scanned e he
    unfold collectLoop at he
    by_cases hreg : entry.isRegularFile = false
    · rw [if_pos hreg] at he
      exact ih scanned e he
    · rw [if_neg hreg] at he
      cases hrel : entry.relNative with
      | none =>
        simp only [hrel, List.mem_cons] at he
        rcases he with h | h | h
        · rw [h]; exact ⟨rfl, rfl⟩
        · rw [h]; exact ⟨rfl, rfl⟩
        · exact ih _ e h
      | some relN =>
        simp only [hrel, List.mem_cons] at he
        rcases he with h | h
        · rw [h]; exact ⟨rfl, rfl⟩
        · exact ih _ e h

theorem packLoop_quiet (sz n : Nat) (items : List SourceItem) :
    ∀ (i : Nat), ∀ e ∈ packLoop sz n items i, e.isConfirmDialog = false := by
  induction items with
  | nil => intro i e he; simp [packLoop] at he
  | cons si rest ih =>
    intro i e he
    simp only [packLoop, List.mem_cons] at he
    rcases he with h | h | h
    · rw [h]; rfl
    · rw [h]; rfl
    · exact ih _ e h

theorem packWrite_quiet (sz : Nat) (w : PackWorld) (outPath : String)
    (items : List SourceItem) : ∀ e ∈ packWrite sz w outPath items, e.isConfirmDialog = false := by
  intro e he
  unfold packWrite at he
  rcases List.mem_cons.mp he with h | h
  · rw [h]; rfl
  · split at h
    · simp only [ShowError, List.mem_cons, List.not_mem_nil, or_false] at h
      rcases h with h | h <;> (rw [h]; rfl)
    · rcases List.mem_append.mp h with h | h
      · rcases List.mem_append.mp h with h | h
        · simp only [List.mem_cons, List.not_mem_nil, or_false] at h
          rcases h with h | h <;> (rw [h]; rfl)
        · exact packLoop_quiet sz _ items 0 e h
      · simp only [List.mem_cons, List.not_mem_nil, or_false] at h
        rcases h with h | h | h | h | h | h | h <;> (rw [h]; rfl)


theorem ExtractWad_gate_shape (sz : Nat) (w : World) (wadPath : String) (buf : List Byte)
    (fc : Nat) (hmap : w.mapFile wadPath = some buf)
    (hv : (validate sz buf).outcome = Outcome.accepted fc)
    (hexists : w.pathExists (w.join (w.parentPath wadPath) (w.stem wadPath)) = true) :
    ExtractWad sz w wadPath
      = [Event.log "Reading WAD header", Event.setProgress 0,
         Event.log (toString fc ++ " files found")]
        ++ (if w.disableOverwriteWarning then
              extractEntries sz w buf (w.join (w.parentPath wadPath) (w.stem wadPath)) fc
            else if w.answerYes (w.join (w.parentPath wadPath) (w.stem wadPath)) then
              Event.confirmDialog (w.join (w.parentPath wadPath) (w.stem wadPath))
                :: extractEntries sz w buf (w.join (w.parentPath wadPath) (w.stem wadPath)) fc
            else
              Event.confirmDialog (w.join (w.parentPath wadPath) (w.stem wadPath))
                :: [Event.log "Extraction cancelled"]) := by
  simp only [ExtractWad, hmap, hv, hexists, if_true]
  rw [confirm_shape]
  rfl

theorem ExtractWad_gate (sz : Nat) (w : World) (wadPath : String)
    (hexists : w.pathExists (w.join (w.parentPath wadPath) (w.stem wadPath)) = true) :
    OverwriteGate (ExtractWad sz w wadPath) w.disableOverwriteWarning
      (w.answerYes (w.join (w.parentPath wadPath) (w.stem wadPath))) := by
  have hquiet : ∀ msg, ∀ e ∈ [Event.log "Reading WAD header", Event.setProgress 0]
      ++ ShowError msg, e.isConfirmDialog = false ∧ e.writesOrCreates = false := by
    intro msg e he
    simp only [ShowError, List.cons_append, List.nil_append, List.mem_cons, List.not_mem_nil,
      or_false] at he
    rcases he with h | h | h | h <;> (rw [h]; exact ⟨rfl, rfl⟩)
  cases hmap : w.mapFile wadPath with
  | none =>
    have : ExtractWad sz w wadPath = [Event.log "Reading WAD header", Event.setProgress 0]
        ++ ShowError "Failed to memory-map WAD file." := by
      simp only [ExtractWad, hmap]
    rw [this]
    exact gate_of_quiet _ _ _ (hquiet _)
  | some buf =>
    cases hv : (validate sz buf).outcome with
    | tooSmall =>
      have : ExtractWad sz w wadPath = [Event.log "Reading WAD header", Event.setProgress 0]
          ++ ShowError "Invalid WAD file." := by
        simp only [ExtractWad, hmap, hv]
      rw [this]
      exact gate_of_quiet _ _ _ (hquiet _)
    | tableExceedsFile =>
      have : ExtractWad sz w wadPath = [Event.log "Reading WAD header", Event.setProgress 0]
          ++ ShowError "Invalid WAD: header/table exceeds file size." := by
        simp only [ExtractWad, hmap, hv]
      rw [this]
      exact gate_of_quiet _ _ _ (hquiet _)
    | corruptEntry i =>
      have : ExtractWad sz w wadPath = [Event.log "Reading WAD header", Event.setProgress 0]
          ++ ShowError "Invalid WAD: corrupt offsets or sizes." := by
        simp only [ExtractWad, hmap, hv]
      rw [this]
      exact gate_of_quiet _ _ _ (hquiet _)
    | fault a =>
      have : ExtractWad sz w wadPath
          = [Event.log "Reading WAD header", Event.setProgress 0, Event.fault] := by
        simp only [ExtractWad, hmap, hv]
        rfl
      rw [this]
      apply gate_of_quiet
      intro e he
      simp only [List.mem_cons, List.not_mem_nil, or_false] at he
      rcases he with h | h | h <;> (rw [h]; exact ⟨rfl, rfl⟩)
    | accepted fc =>
      rw [ExtractWad_gate_shape sz w wadPath buf fc hmap hv hexists]
      apply gate_shape
      · intro e he
        simp only [List.mem_cons, List.not_mem_nil, or_false] at he
        rcases he with h | h | h <;> (rw [h]; exact ⟨rfl, rfl⟩)
      · exact extractEntries_quiet sz w buf _ fc
      · intro e he
        simp only [List.mem_singleton] at he
        rw [he]; exact ⟨rfl, rfl⟩

theorem PackFolder_gate_shape (sz : Nat) (w : PackWorld) (folderPath : String)
    (hdir : w.isDirectory folderPath = true)
    (hfiles : ((w.walk 0 folderPath).filter fun entry => entry.isRegularFile).length ≠ 0)
    (hexists : w.pathExists (w.replaceExtension folderPath ".wad") = true) :
    PackFolder sz w folderPath
      = ([Event.log "Reading folder contents...", Event.setProgress 0,
          Event.log (toString ((w.walk 0 folderPath).filter
            fun entry => entry.isRegularFile).length ++ " files found")]
          ++ (collectLoop sz w ((w.walk 0 folderPath).filter
                fun entry => entry.isRegularFile).length (w.walk 1 folderPath) 0).1
          ++ [Event.setProgress 100, Event.log "Collecting files completed"])
        ++ (if w.disableOverwriteWarning then
              packWrite sz w (w.replaceExtension folderPath ".wad")
                (collectLoop sz w ((w.walk 0 folderPath).filter
                  fun entry => entry.isRegularFile).length (w.walk 1 folderPath) 0).2
            else if w.answerYes (w.replaceExtension folderPath ".wad") then
              Event.confirmDialog (w.replaceExtension folderPath ".wad")
                :: packWrite sz w (w.replaceExtension folderPath ".wad")
                  (collectLoop sz w ((w.walk 0 folderPath).filter
                    fun entry => entry.isRegularFile).length (w.walk 1 folderPath) 0).2
            else
              Event.confirmDialog (w.replaceExtension folderPath ".wad")
                :: [Event.log "Cancelled creating WAD"]) := by
  simp only [PackFolder, hdir, hfiles, hexists, Bool.true_eq_false, if_false, if_true]
  rw [confirm_shape]
  simp only [List.cons_append, List.nil_append, List.append_assoc]

theorem PackFolder_gate (sz : Nat) (w : PackWorld) (folderPath : String)
    (hexists : w.pathExists (w.replaceExtension folderPath ".wad") = true) :
    OverwriteGate (PackFolder sz w folderPath) w.disableOverwriteWarning
      (w.answerYes (w.replaceExtension folderPath ".wad")) := by
  by_cases hdir : w.isDirectory folderPath = true
  · by_cases hfiles : ((w.walk 0 folderPath).filter fun entry => entry.isRegularFile).length = 0
    · have : PackFolder sz w folderPath
          = [Event.log "Reading folder contents...", Event.setProgress 0,
             Event.log "Folder contains no files."] := by
        simp only [PackFolder, hdir, hfiles, Bool.true_eq_false, if_false, if_true,
          List.cons_append, List.nil_append]
      rw [this]
      apply gate_of_quiet
      intro e he
      simp only [List.mem_cons, List.not_mem_nil, or_false] at he
      rcases he with h | h | h <;> (rw [h]; exact ⟨rfl, rfl⟩)
    · rw [PackFolder_gate_shape sz w folderPath hdir hfiles hexists]
      apply gate_shape
      · intro e he
        rcases List.mem_append.mp he with h | h
        · rcases List.mem_append.mp h with h | h
          · simp only [List.mem_cons, List.not_mem_nil, or_false] at h
            rcases h with h | h | h <;> (rw [h]; exact ⟨rfl, rfl⟩)
          · exact collectLoop_quiet sz w _ _ 0 e h
        · simp only [List.mem_cons, List.not_mem_nil, or_false] at h
          rcases h with h | h <;> (rw [h]; exact ⟨rfl, rfl⟩)
      · exact packWrite_quiet sz w _ _
      · intro e he
        simp only [List.mem_singleton] at he
        rw [he]; exact ⟨rfl, rfl⟩
  · have hd : w.isDirectory folderPath = false := by simpa using hdir
    have : PackFolder sz w folderPath
        = [Event.log "Reading folder contents...", Event.setProgress 0]
          ++ ShowError "Path is not a directory." := by
      simp only [PackFolder, hd, if_true]
    rw [this]
    apply gate_of_quiet
    intro e he
    simp only [ShowError, List.cons_append, List.nil_append, List.mem_cons, List.not_mem_nil,
      or_false] at he
    rcases he with h | h | h | h <;> (rw [h]; exact ⟨rfl, rfl⟩)


/-- C11: when the destination exists, the effects of `ExtractWad` and of `PackFolder` obey the
overwrite gate (`OverwriteGate`): the message box is shown at most once and never with the skip
flag set, nothing is written or created before overwrite is granted, and nothing at all after a
negative answer. Once the operation reaches the destination step (the archive is accepted; the
folder holds a file), the effects are a prefix free of writes, then: with the flag set, the rest
of the operation without any message box; with the flag unset, exactly one message box, followed
by the rest of the operation after a yes and by the cancellation line alone after a no. -/
theorem overwrite_gate (sz : Nat) (w : World) (pw : PackWorld) (wadPath folderPath : String)
    (hdir : w.pathExists (w.join (w.parentPath wadPath) (w.stem wadPath)) = true)
    (hwad : pw.pathExists (pw.replaceExtension folderPath ".wad") = true) :
    OverwriteGate (ExtractWad sz w wadPath) w.disableOverwriteWarning
      (w.answerYes (w.join (w.parentPath wadPath) (w.stem wadPath))) ∧
    (∀ buf fc, w.mapFile wadPath = some buf →
      (validate sz buf).outcome = Outcome.accepted fc →
      ExtractWad sz w wadPath
        = [Event.log "Reading WAD header", Event.setProgress 0,
           Event.log (toString fc ++ " files found")]
          ++ (if w.disableOverwriteWarning then
                extractEntries sz w buf (w.join (w.parentPath wadPath) (w.stem wadPath)) fc
              else if w.answerYes (w.join (w.parentPath wadPath) (w.stem wadPath)) then
                Event.confirmDialog (w.join (w.parentPath wadPath) (w.stem wadPath))
                  :: extractEntries sz w buf (w.join (w.parentPath wadPath) (w.stem wadPath)) fc
              else
                Event.confirmDialog (w.join (w.parentPath wadPath) (w.stem wadPath))
                  :: [Event.log "Extraction cancelled"]) ∧
      (w.disableOverwriteWarning = false →
        (ExtractWad sz w wadPath).countP Event.isConfirmDialog = 1)) ∧
    OverwriteGate (PackFolder sz pw folderPath) pw.disableOverwriteWarning
      (pw.answerYes (pw.replaceExtension folderPath ".wad")) ∧
    (pw.isDirectory folderPath = true →
      ((pw.walk 0 folderPath).filter fun entry => entry.isRegularFile).length ≠ 0 →
      ∃ head items, (∀ e ∈ head, e.isConfirmDialog = false ∧ e.writesOrCreates = false) ∧
        PackFolder sz pw folderPath
          = head ++ (if pw.disableOverwriteWarning then
                packWrite sz pw (pw.replaceExtension folderPath ".wad") items
              else if pw.answerYes (pw.replaceExtension folderPath ".wad") then
                Event.confirmDialog (pw.replaceExtension folderPath ".wad")
                  :: packWrite sz pw (pw.replaceExtension folderPath ".wad") items
              else
                Event.confirmDialog (pw.replaceExtension folderPath ".wad")
                  :: [Event.log "Cancelled creating WAD"]) ∧
        (pw.disableOverwriteWarning = false →
          (PackFolder sz pw folderPath).countP Event.isConfirmDialog = 1)) := by
  have hcount : ∀ (head body cancel : List Event) (target : String) (yes : Bool),
      (∀ e ∈ head, e.isConfirmDialog = false) → (∀ e ∈ body, e.isConfirmDialog = false) →
      (∀ e ∈ cancel, e.isConfirmDialog = false) →
      (head ++ (if false = true then body
        else if yes = true then Event.confirmDialog target :: body
        else Event.confirmDialog target :: cancel)).countP Event.isConfirmDialog = 1 := by
    intro head body cancel target yes h1 h2 h3
    cases yes
    · simp only [Bool.false_eq_true, if_false]
      rw [List.countP_append, List.countP_cons, countP_quiet head h1, countP_quiet cancel h3]
      simp [Event.isConfirmDialog]
    · simp only [Bool.false_eq_true, if_false, if_true]
      rw [List.countP_append, List.countP_cons, countP_quiet head h1, countP_quiet body h2]
      simp [Event.isConfirmDialog]
  refine ⟨ExtractWad_gate sz w wadPath hdir, fun buf fc hmap hv => ?_,
    PackFolder_gate sz pw folderPath hwad, fun hd hfiles => ?_⟩
  · have hshape := ExtractWad_gate_shape sz w wadPath buf fc hmap hv hdir
    refine ⟨hshape, fun hflag => ?_⟩
    rw [hshape, hflag]
    apply hcount
    · intro e he
      simp only [List.mem_cons, List.not_mem_nil, or_false] at he
      rcases he with h | h | h <;> (rw [h]; rfl)
    · exact extractEntries_quiet sz w buf _ fc
    · intro e he
      simp only [List.mem_singleton] at he
      rw [he]; rfl
  · have hshape := PackFolder_gate_shape sz pw folderPath hd hfiles hwad
    have hhead : ∀ e ∈ [Event.log "Reading folder contents...", Event.setProgress 0,
          Event.log (toString ((pw.walk 0 folderPath).filter
            fun entry => entry.isRegularFile).length ++ " files found")]
          ++ (collectLoop sz pw ((pw.walk 0 folderPath).filter
                fun entry => entry.isRegularFile).length (pw.walk 1 folderPath) 0).1
          ++ [Event.setProgress 100, Event.log "Collecting files completed"],
        e.isConfirmDialog = false ∧ e.writesOrCreates = false := by
      intro e he
      rcases List.mem_append.mp he with h | h
      · rcases List.mem_append.mp h with h | h
        · simp only [List.mem_cons, List.not_mem_nil, or_false] at h
          rcases h with h | h | h <;> (rw [h]; exact ⟨rfl, rfl⟩)
        · exact collectLoop_quiet sz pw _ _ 0 e h
      · simp only [List.mem_cons, List.not_mem_nil, or_false] at h
        rcases h with h | h <;> (rw [h]; exact ⟨rfl, rfl⟩)
    refine ⟨_, _, hhead, hshape, fun hflag => ?_⟩
    rw [hshape, hflag]
    apply hcount
    · exact fun e he => (hhead e he).1
    · exact packWrite_quiet sz pw _ _
    · intro e he
      simp only [List.mem_singleton] at he
      rw [he]; rfl

theorem overwrite_gate_witness :
    (ExtractWad 64 (samplePackWorld fiveEntryView true false false).toWorld "x.wad"
      = [Event.log "Reading WAD header", Event.setProgress 0, Event.log "5 files found",
         Event.confirmDialog (sep ++ "x"), Event.log "Extraction cancelled"]) ∧
    OverwriteGate
      (ExtractWad 64 (samplePackWorld fiveEntryView true false false).toWorld "x.wad")
      false false ∧
    OverwriteGate (PackFolder 64 (samplePackWorld [] true false false) "dir") false false :=
  ⟨by set_option maxRecDepth 100000 in decide,
    (overwrite_gate 64 (samplePackWorld fiveEntryView true false false).toWorld
      (samplePackWorld [] true false false) "x.wad" "dir" rfl rfl).1,
    (overwrite_gate 64 (samplePackWorld fiveEntryView true false false).toWorld
      (samplePackWorld [] true false false) "x.wad" "dir" rfl rfl).2.2.1⟩


end OpenWAD
